import Mathlib

/-!
# Verification of the curve Dentry Storage Engine and cleanup subsystem

This development embeds, as executable Lean definitions, the behavior of the
repository's dentry storage engine (`curvefs` metaserver dentry storage: the
MVCC-style version chains with `Insert`/`Delete`/`Get`/`List` and the
two-phase `PrepareTx`/`CommitTx`/`RollbackTx` protocol) and of the
snapshot-cleanup functions `CleanCore::CleanSnapShotFile` /
`CleanCore::CleanFile` from `src/mds/nameserver2/clean_core.cpp`.

The dentry storage implementation file itself is not present in the source
tree (only its reference test suite,
`curvefs/test/metaserver/dentry_storage_test.cpp`, is).  Its definitions below
are therefore modelled from the specification's component design (spec §3,
§4.2-4.5), with every behavior that the specification leaves ambiguous pinned
down by the assertions of the reference test suite; each such resolution is
recorded in the corresponding doc comment.  `clean_core.cpp` is present in the
source tree and is embedded directly from source.
-/

/-! ## Data model (spec §3)

`Modelled from the spec:` the `Dentry` protobuf message of the metaserver
(its definition file is not in the source tree).  Fields follow spec §3;
machine integers (`u32`/`u64`) are modelled as `Nat` since no operation of
this engine performs arithmetic that could overflow them (they are only
compared and copied). -/

inductive FsFileType where
  | TYPE_FILE
  | TYPE_DIRECTORY
  | TYPE_S3
deriving DecidableEq, Repr

/-- `Modelled from the spec:` the value of `DentryFlag::DELETE_MARK_FLAG`
(the protobuf enum is not in the source tree).  Spec §3 describes `flags` as
a bitset containing `DELETE_MARK`; the concrete bit value is irrelevant to
every property proved here, only `flag &&& DELETE_MARK_FLAG ≠ 0` matters. -/
def DELETE_MARK_FLAG : Nat := 2

structure Dentry where
  fsId : Nat
  parentInodeId : Nat
  name : String
  txId : Nat
  inodeId : Nat
  flag : Nat
  type : FsFileType
deriving DecidableEq, Repr

/-- A row is a tombstone when its flag bitset contains `DELETE_MARK`
(spec §3: "when `DELETE_MARK` is set, the row is a tombstone"). -/
def hasDeleteMark (d : Dentry) : Bool := d.flag &&& DELETE_MARK_FLAG != 0

/-- Status codes of the engine's closed error taxonomy (spec §7). -/
inductive MetaStatusCode where
  | OK
  | NOT_FOUND
  | DENTRY_EXIST
  | IDEMPOTENCE_OK
deriving DecidableEq, Repr

/-- Two rows belong to the same version chain: same
`(fsId, parentInodeId, name)` (spec §3, glossary "Chain"). -/
def sameName (a b : Dentry) : Prop :=
  a.fsId = b.fsId ∧ a.parentInodeId = b.parentInodeId ∧ a.name = b.name

instance (a b : Dentry) : Decidable (sameName a b) := by
  unfold sameName; infer_instance

/-- Two rows occupy the same physical key `(fsId, parentInodeId, name, txId)`
(spec §3, invariant I1). -/
def sameKey (a b : Dentry) : Prop := sameName a b ∧ a.txId = b.txId

instance (a b : Dentry) : Decidable (sameKey a b) := by
  unfold sameKey; infer_instance

/-- The strict total order on physical keys established by the key codec
(spec §4.1): ascending `fsId`, then `parentInodeId`, then `name`
(lexicographically over the byte sequence, compared here as the character
list `name.data`), then `txId`. -/
def keyLt (a b : Dentry) : Prop :=
  a.fsId < b.fsId ∨
    (a.fsId = b.fsId ∧
      (a.parentInodeId < b.parentInodeId ∨
        (a.parentInodeId = b.parentInodeId ∧
          (a.name.data < b.name.data ∨
            (a.name.data = b.name.data ∧ a.txId < b.txId)))))

instance (a b : Dentry) : Decidable (keyLt a b) := by
  unfold keyLt; infer_instance

/-- A storage state: the physically stored rows, kept in ascending key-codec
order (spec §4.1: rows live in a byte-ordered keyspace, so the canonical
state of the store is its key-sorted row sequence). -/
abbrev Store := List Dentry

/-- Well-formedness of a storage state: rows strictly ascend in key order.
This holds for every reachable state (the byte-ordered keyspace stores at
most one value per key, spec invariant I1, and iteration yields keys in
ascending order, spec §4.1). -/
def WF (s : Store) : Prop := List.Pairwise keyLt s

instance (s : Store) : Decidable (WF s) := by
  unfold WF; infer_instance

/-! ## Key order: basic facts -/

theorem keyLt_irrefl (a : Dentry) : ¬ keyLt a a := by
  unfold keyLt
  rintro (h | ⟨-, h | ⟨-, h | ⟨-, h⟩⟩⟩) <;> simp at h

theorem lexOr_trans {α : Type _} [Preorder α] {a b c : α} {P Q R : Prop}
    (hpq : P → Q → R) (h1 : a < b ∨ (a = b ∧ P)) (h2 : b < c ∨ (b = c ∧ Q)) :
    a < c ∨ (a = c ∧ R) := by
  rcases h1 with h1 | ⟨e1, hp⟩
  · rcases h2 with h2 | ⟨e2, -⟩
    · exact Or.inl (h1.trans h2)
    · exact Or.inl (e2 ▸ h1)
  · rcases h2 with h2 | ⟨e2, hq⟩
    · exact Or.inl (e1 ▸ h2)
    · exact Or.inr ⟨e1.trans e2, hpq hp hq⟩

theorem keyLt_trans {a b c : Dentry} (hab : keyLt a b) (hbc : keyLt b c) :
    keyLt a c := by
  unfold keyLt at *
  exact lexOr_trans
    (lexOr_trans (lexOr_trans (fun p q => p.trans q))) hab hbc

theorem keyLt_asymm {a b : Dentry} (hab : keyLt a b) : ¬ keyLt b a := by
  intro hba
  exact keyLt_irrefl a (keyLt_trans hab hba)

theorem strData_inj {a b : String} (h : a.data = b.data) : a = b := by
  cases a; cases b; exact congrArg String.mk h

theorem keyLt_of_not_sameKey {a b : Dentry} (h : ¬ sameKey a b) :
    keyLt a b ∨ keyLt b a := by
  unfold sameKey sameName at h
  unfold keyLt
  by_cases h1 : a.fsId = b.fsId
  · by_cases h2 : a.parentInodeId = b.parentInodeId
    · by_cases h3 : a.name.data = b.name.data
      · have h4 : a.txId ≠ b.txId := by
          intro h4; exact h ⟨⟨h1, h2, strData_inj h3⟩, h4⟩
        rcases Nat.lt_or_ge a.txId b.txId with h5 | h5
        · exact Or.inl (Or.inr ⟨h1, Or.inr ⟨h2, Or.inr ⟨h3, h5⟩⟩⟩)
        · have h6 : b.txId < a.txId := lt_of_le_of_ne h5 (Ne.symm h4)
          exact Or.inr (Or.inr ⟨h1.symm, Or.inr ⟨h2.symm, Or.inr ⟨h3.symm, h6⟩⟩⟩)
      · rcases lt_or_gt_of_ne h3 with h5 | h5
        · exact Or.inl (Or.inr ⟨h1, Or.inr ⟨h2, Or.inl h5⟩⟩)
        · exact Or.inr (Or.inr ⟨h1.symm, Or.inr ⟨h2.symm, Or.inl h5⟩⟩)
    · rcases lt_or_gt_of_ne h2 with h5 | h5
      · exact Or.inl (Or.inr ⟨h1, Or.inl h5⟩)
      · exact Or.inr (Or.inr ⟨h1.symm, Or.inl h5⟩)
  · rcases lt_or_gt_of_ne h1 with h5 | h5
    · exact Or.inl (Or.inl h5)
    · exact Or.inr (Or.inl h5)

theorem sameName_symm {a b : Dentry} (h : sameName a b) : sameName b a :=
  ⟨h.1.symm, h.2.1.symm, h.2.2.symm⟩

theorem sameName_trans {a b c : Dentry} (h1 : sameName a b)
    (h2 : sameName b c) : sameName a c :=
  ⟨h1.1.trans h2.1, h1.2.1.trans h2.2.1, h1.2.2.trans h2.2.2⟩

theorem keyLt_iff_txLt_of_sameName {a b : Dentry} (h : sameName a b) :
    (keyLt a b ↔ a.txId < b.txId) := by
  obtain ⟨e1, e2, e3⟩ := h
  have e3' : a.name.data = b.name.data := by rw [e3]
  unfold keyLt
  constructor
  · rintro (h' | ⟨-, h' | ⟨-, h' | ⟨-, h'⟩⟩⟩)
    · omega
    · omega
    · exact absurd e3' (ne_of_lt h')
    · exact h'
  · intro h'
    exact Or.inr ⟨e1, Or.inr ⟨e2, Or.inr ⟨e3', h'⟩⟩⟩

/-! ## Chains and the version resolver (spec §4.2) -/

/-- All stored rows of the version chain at `(f, p, n)`: the rows sharing
that `(fsId, parentInodeId, name)`, in store order (ascending `txId` for a
well-formed store, by the key codec order of spec §4.1). -/
def chainAt (s : Store) (f p : Nat) (n : String) : List Dentry :=
  s.filter (fun r => decide (r.fsId = f ∧ r.parentInodeId = p ∧ r.name = n))

/-- The version chain of the key named by `d`. -/
def chainOf (s : Store) (d : Dentry) : List Dentry :=
  chainAt s d.fsId d.parentInodeId d.name

/-- `Modelled from the spec:` spec §4.2, the version resolver's row
selection (the dentry storage implementation is not in the source tree):
"scans the chain for the last row with `txId ≤ snapshotTxId`".  The chain is
handed over in store order, so the last qualifying row is the one with the
largest `txId ≤ snapshotTxId`. -/
def resolveRow (chain : List Dentry) (snapshotTxId : Nat) : Option Dentry :=
  (chain.filter (fun r => decide (r.txId ≤ snapshotTxId))).getLast?

/-- `Modelled from the spec:` spec §4.2 `Resolve` (the dentry storage
implementation is not in the source tree): the resolved row, or `none` when
no row has `txId ≤ snapshotTxId` or the selected row carries
`DELETE_MARK`. -/
def Resolve (chain : List Dentry) (snapshotTxId : Nat) : Option Dentry :=
  match resolveRow chain snapshotTxId with
  | none => none
  | some r => if hasDeleteMark r then none else some r

/-! ## Primitive row operations on the ordered keyspace -/

/-- Upsert of row `d` into the key-sorted row sequence: `d` is placed at its
key-codec position, replacing the row already holding the same physical key
if one is there (the underlying key-value store holds one value per key,
spec §6 `Put`). -/
def insertRow (d : Dentry) : Store → Store
  | [] => [d]
  | r :: rs =>
    if keyLt d r then d :: r :: rs
    else if sameKey d r then d :: rs
    else r :: insertRow d rs

/-- The row physically stored at exactly `d`'s key, if any (spec §4.3 step 2:
"a physical row occupies that exact key"). -/
def findExact (s : Store) (d : Dentry) : Option Dentry :=
  s.find? (fun r => decide (sameKey r d))

/-- Remove every row of `d`'s version chain (spec §4.3: "physically purge
the entire version chain for that key"). -/
def eraseChain (s : Store) (d : Dentry) : Store :=
  s.filter (fun r => decide (¬ sameName r d))

/-- Opportunistic compaction after a redundant insert: `v`'s version chain
is reduced to the single visible row `v`; rows of other chains are kept
(spec §4.3 step 3 / §9: the spec leaves the exact compaction boundary open
and directs implementers to the minimal rule keeping the chain's visible
content; the reference test `DentryStorageTest.Insert` CASE 5 pins this
down — after a redundant insert the chain holds exactly the visible row). -/
def compactChain (s : Store) (v : Dentry) : Store :=
  s.filter (fun r => decide (¬ sameName r v ∨ r = v))

/-! ## Mutation engine (spec §4.3) -/

/-- `Modelled from the spec:` spec §4.3 `Insert` steps 1-4 (the dentry
storage implementation is not in the source tree).
1. Resolve the visible row at snapshot `dentry.txId`.
2. A physical row at exactly `dentry.txId` whose content differs is a
   conflicting concurrent create: `DENTRY_EXIST`, no mutation.
3. A visible row already representing the target `dentry` would produce
   (same `inodeId`, both non-tombstone) makes the insert redundant:
   `IDEMPOTENCE_OK` without a new row, with opportunistic compaction of the
   chain (see `compactChain`).
4. Otherwise the row is inserted: `OK`.
`logIndex` is bookkeeping only (spec §2) and does not influence the state
transition, so it is not a parameter of the model. -/
def DentryStorage.Insert (s : Store) (d : Dentry) : MetaStatusCode × Store :=
  match findExact s d with
  | some r =>
    if r = d then
      match Resolve (chainOf s d) d.txId with
      | some v =>
        if v.inodeId = d.inodeId ∧ hasDeleteMark d = false then
          (MetaStatusCode.IDEMPOTENCE_OK, compactChain s v)
        else (MetaStatusCode.OK, insertRow d s)
      | none => (MetaStatusCode.OK, insertRow d s)
    else (MetaStatusCode.DENTRY_EXIST, s)
  | none =>
    match Resolve (chainOf s d) d.txId with
    | some v =>
      if v.inodeId = d.inodeId ∧ hasDeleteMark d = false then
        (MetaStatusCode.IDEMPOTENCE_OK, compactChain s v)
      else (MetaStatusCode.OK, insertRow d s)
    | none => (MetaStatusCode.OK, insertRow d s)

/-- `Modelled from the spec:` spec §4.3 `Delete` (the dentry storage
implementation is not in the source tree).  The candidate row is the
chain's newest row (largest `txId`); spec §4.3 step 1 says "resolve at
snapshot `dentry.txId`", but under that reading its step 3 (a visible row
with `txId` *greater* than the request) could never arise, and the
reference test `DentryStorageTest.Delete` CASE 4 (a chain holding only a
newer row survives a stale delete with `Size` intact) confirms the newest
row is what the staleness check inspects.  The staleness rejection is
checked before the tombstone purge: spec §8's delete-monotonicity property
("`Delete` at `txId = t` never removes a visible row whose `txId > t`")
requires that a stale request mutates nothing.
1. Empty chain: `NOT_FOUND`, no mutation.
2. Newest row strictly newer than the request: stale, `NOT_FOUND`, no
   mutation.
3. Newest row a tombstone: the key is already logically absent,
   `NOT_FOUND`, and the whole chain is physically purged.
4. Otherwise the delete is valid: the whole chain is purged, `OK`. -/
def DentryStorage.Delete (s : Store) (d : Dentry) : MetaStatusCode × Store :=
  match (chainOf s d).getLast? with
  | none => (MetaStatusCode.NOT_FOUND, s)
  | some newest =>
    if d.txId < newest.txId then (MetaStatusCode.NOT_FOUND, s)
    else if hasDeleteMark newest then (MetaStatusCode.NOT_FOUND, eraseChain s d)
    else (MetaStatusCode.OK, eraseChain s d)

/-! ## Enumeration engine (spec §4.5) -/

/-- `Modelled from the spec:` spec §4.5 `Get` (the dentry storage
implementation is not in the source tree): resolve the visible row of
`d`'s key at snapshot `d.txId`; `OK` with the resolved row's fields, or
`NOT_FOUND` with the output left unset. -/
def DentryStorage.Get (s : Store) (d : Dentry) : MetaStatusCode × Option Dentry :=
  match Resolve (chainOf s d) d.txId with
  | some r => (MetaStatusCode.OK, some r)
  | none => (MetaStatusCode.NOT_FOUND, none)

/-- The distinct child names under `(f, p)` strictly greater than the
cursor name, in ascending name order (the range-scan order of the key
codec, spec §4.1 and §4.5). -/
def namesOf (s : Store) (f p : Nat) (cursor : String) : List String :=
  ((s.filter (fun r =>
      decide (r.fsId = f ∧ r.parentInodeId = p ∧
        cursor.data < r.name.data))).map
    (fun r => r.name)).dedup

/-- `Modelled from the spec:` spec §4.5 `List` (the dentry storage
implementation is not in the source tree; named `ListOp` here because
`List` is Lean's list type): bounded range scan over all names under
`(d.fsId, d.parentInodeId)` strictly greater than `d.name` (the empty name
starts from the first child); each distinct name is resolved at snapshot
`d.txId` and skipped when absent or tombstoned; with `dirOnly`, resolved
rows whose type is not a directory are skipped as well; `limit = 0` is
unbounded, otherwise at most `limit` qualifying entries are returned (spec
§9 fixes the open limit/filter interaction as "limit counts only entries
that pass the filter").  The status is always `OK` (spec §6: an empty list
is success).  `listEntries` is the scan itself; `DentryStorage.ListOp`
applies the limit and returns the status. -/
def listEntries (s : Store) (d : Dentry) (dirOnly : Bool) : List Dentry :=
  (namesOf s d.fsId d.parentInodeId d.name).filterMap
    (fun n =>
      match Resolve (chainAt s d.fsId d.parentInodeId n) d.txId with
      | some r =>
        if dirOnly ∧ r.type ≠ FsFileType.TYPE_DIRECTORY then none
        else some r
      | none => none)

def DentryStorage.ListOp (s : Store) (d : Dentry) (limit : Nat) (dirOnly : Bool) :
    MetaStatusCode × List Dentry :=
  (MetaStatusCode.OK,
   if limit = 0 then listEntries s d dirOnly
   else (listEntries s d dirOnly).take limit)

/-! ## Transaction engine (spec §4.4) -/

/-- `Modelled from the spec:` spec §4.4 `PrepareTx` (the dentry storage
implementation is not in the source tree): every dentry of the set is
unconditionally upserted at its exact key, with no conflict or idempotence
check; re-preparing an identical row is a no-op overwrite.  The transaction
request descriptor is opaque to the engine (spec §4.4) and `logIndex` is
bookkeeping only, so neither is a parameter of the model. -/
def DentryStorage.PrepareTx (s : Store) (dentries : List Dentry) : MetaStatusCode × Store :=
  (MetaStatusCode.OK, dentries.foldl (fun st d => insertRow d st) s)

/-- One dentry's commit: the row stored at the dentry's exact key (the
prepared version; the dentry itself when no row is stored there) becomes
the sole truth for the key — every other chain row is purged, and nothing
remains at all when that row carries `DELETE_MARK` (spec §4.4 `CommitTx`;
the reference test `DentryStorageTest.HandleTx` "commit dentry with
DELETE_MARK_FLAG flag" shows the stored prepared row, not the argument
struct, is what decides the tombstone case). -/
def DentryStorage.commitOne (s : Store) (d : Dentry) : Store :=
  let r := (findExact s d).getD d
  if hasDeleteMark r then eraseChain s d
  else insertRow r (eraseChain s d)

/-- `Modelled from the spec:` spec §4.4 `CommitTx` (the dentry storage
implementation is not in the source tree): each dentry's chain collapses to
its committed version (or to nothing for a tombstone). -/
def DentryStorage.CommitTx (s : Store) (dentries : List Dentry) : MetaStatusCode × Store :=
  (MetaStatusCode.OK, dentries.foldl DentryStorage.commitOne s)

/-- `Modelled from the spec:` spec §4.4 `RollbackTx` (the dentry storage
implementation is not in the source tree): for each dentry, exactly the row
at `(fsId, parentInodeId, name, txId)` is removed; all other rows are left
untouched. -/
def DentryStorage.RollbackTx (s : Store) (dentries : List Dentry) : MetaStatusCode × Store :=
  (MetaStatusCode.OK,
    dentries.foldl (fun st d => st.filter (fun r => decide (¬ sameKey r d))) s)

/-- `Modelled from the spec:` spec §6 `Size` (the dentry storage
implementation is not in the source tree): the number of physically stored
rows — every chain version, tombstones included (spec invariant I3). -/
def DentryStorage.Size (s : Store) : Nat := s.length

/-- `Modelled from the spec:` spec §6 `Clear` (the dentry storage
implementation is not in the source tree): drop the whole keyspace
partition. -/
def DentryStorage.Clear (_s : Store) : Store := []

/-! ## The spec-modelled engine replays the reference test suite

The following closed theorems replay, operation by operation, the scenarios
of `curvefs/test/metaserver/dentry_storage_test.cpp` (the only authoritative
code for the engine present in the source tree) against the model, checking
both the returned status codes and the asserted sizes/contents. -/

theorem test_insert_case1 :
    DentryStorage.Insert [] ⟨1, 1, "A", 0, 2, 0, .TYPE_FILE⟩ =
      (.OK, [⟨1, 1, "A", 0, 2, 0, .TYPE_FILE⟩]) := by decide

theorem test_insert_case2 :
    DentryStorage.Insert [⟨1, 1, "A", 0, 2, 0, .TYPE_FILE⟩]
        ⟨1, 1, "A", 0, 3, 0, .TYPE_FILE⟩ =
      (.DENTRY_EXIST, [⟨1, 1, "A", 0, 2, 0, .TYPE_FILE⟩]) := by decide

theorem test_insert_case3 :
    DentryStorage.Insert [⟨1, 1, "A", 0, 2, 0, .TYPE_FILE⟩]
        ⟨1, 1, "A", 1, 2, 0, .TYPE_FILE⟩ =
      (.IDEMPOTENCE_OK, [⟨1, 1, "A", 0, 2, 0, .TYPE_FILE⟩]) := by decide

theorem test_insert_case4 :
    DentryStorage.PrepareTx [⟨1, 1, "A", 0, 2, 0, .TYPE_FILE⟩]
        [⟨1, 1, "A", 1, 2, 0, .TYPE_FILE⟩] =
      (.OK, [⟨1, 1, "A", 0, 2, 0, .TYPE_FILE⟩,
             ⟨1, 1, "A", 1, 2, 0, .TYPE_FILE⟩]) := by decide

theorem test_insert_case5 :
    DentryStorage.Insert
        [⟨1, 1, "A", 0, 2, 0, .TYPE_FILE⟩, ⟨1, 1, "A", 1, 2, 0, .TYPE_FILE⟩]
        ⟨1, 1, "A", 1, 2, 0, .TYPE_FILE⟩ =
      (.IDEMPOTENCE_OK, [⟨1, 1, "A", 1, 2, 0, .TYPE_FILE⟩]) := by decide

theorem test_delete_case1 :
    DentryStorage.Delete [] ⟨1, 1, "A", 0, 2, 0, .TYPE_FILE⟩ =
      (.NOT_FOUND, []) := by decide

theorem test_delete_case2 :
    DentryStorage.Delete [⟨1, 1, "A", 0, 2, 0, .TYPE_FILE⟩]
        ⟨1, 1, "A", 0, 2, 0, .TYPE_FILE⟩ = (.OK, []) := by decide

theorem test_delete_case3 :
    DentryStorage.Delete
        [⟨1, 1, "A", 0, 2, 0, .TYPE_FILE⟩, ⟨1, 1, "A", 1, 2, 0, .TYPE_FILE⟩]
        ⟨1, 1, "A", 2, 2, 0, .TYPE_FILE⟩ = (.OK, []) := by decide

theorem test_delete_case4 :
    DentryStorage.Delete [⟨1, 1, "A", 2, 2, 0, .TYPE_FILE⟩]
        ⟨1, 1, "A", 1, 2, 0, .TYPE_FILE⟩ =
      (.NOT_FOUND, [⟨1, 1, "A", 2, 2, 0, .TYPE_FILE⟩]) ∧
    DentryStorage.Delete [⟨1, 1, "A", 2, 2, 0, .TYPE_FILE⟩]
        ⟨1, 1, "A", 2, 2, 0, .TYPE_FILE⟩ = (.OK, []) := by decide

theorem test_delete_case5 :
    DentryStorage.Insert [] ⟨1, 1, "A", 2, 2, 2, .TYPE_FILE⟩ =
      (.OK, [⟨1, 1, "A", 2, 2, 2, .TYPE_FILE⟩]) ∧
    DentryStorage.Delete [⟨1, 1, "A", 2, 2, 2, .TYPE_FILE⟩]
        ⟨1, 1, "A", 2, 2, 2, .TYPE_FILE⟩ = (.NOT_FOUND, []) := by decide

theorem test_delete_case6 :
    DentryStorage.Delete
        [⟨1, 1, "A", 0, 2, 2, .TYPE_FILE⟩, ⟨1, 1, "A", 1, 2, 2, .TYPE_FILE⟩]
        ⟨1, 1, "A", 1, 2, 2, .TYPE_FILE⟩ = (.NOT_FOUND, []) := by decide

theorem test_get_case1 :
    DentryStorage.Get [] ⟨1, 0, "A", 0, 0, 0, .TYPE_FILE⟩ =
      (.NOT_FOUND, none) := by decide

theorem test_get_case2 :
    DentryStorage.Get
        [⟨1, 0, "A", 0, 1, 0, .TYPE_FILE⟩, ⟨1, 0, "B", 0, 2, 0, .TYPE_FILE⟩]
        ⟨1, 0, "A", 0, 0, 0, .TYPE_FILE⟩ =
      (.OK, some ⟨1, 0, "A", 0, 1, 0, .TYPE_FILE⟩) ∧
    DentryStorage.Get
        [⟨1, 0, "A", 0, 1, 0, .TYPE_FILE⟩, ⟨1, 0, "B", 0, 2, 0, .TYPE_FILE⟩]
        ⟨1, 0, "B", 0, 0, 0, .TYPE_FILE⟩ =
      (.OK, some ⟨1, 0, "B", 0, 2, 0, .TYPE_FILE⟩) := by decide

theorem test_get_case3 :
    DentryStorage.Get
        [⟨1, 0, "A", 0, 1, 0, .TYPE_FILE⟩, ⟨1, 0, "A", 1, 2, 0, .TYPE_FILE⟩]
        ⟨1, 0, "A", 1, 0, 0, .TYPE_FILE⟩ =
      (.OK, some ⟨1, 0, "A", 1, 2, 0, .TYPE_FILE⟩) := by decide

theorem test_get_case4 :
    DentryStorage.Get
        [⟨1, 0, "A", 0, 1, 0, .TYPE_FILE⟩, ⟨1, 0, "A", 1, 1, 2, .TYPE_FILE⟩]
        ⟨1, 0, "A", 1, 0, 0, .TYPE_FILE⟩ = (.NOT_FOUND, none) := by decide

theorem test_list_case1 :
    DentryStorage.ListOp
        [⟨1, 0, "A1", 0, 1, 0, .TYPE_FILE⟩, ⟨1, 0, "A2", 0, 2, 0, .TYPE_FILE⟩,
         ⟨1, 0, "A3", 0, 3, 0, .TYPE_FILE⟩, ⟨1, 0, "A4", 0, 4, 0, .TYPE_FILE⟩,
         ⟨1, 0, "A5", 0, 5, 0, .TYPE_FILE⟩]
        ⟨1, 0, "", 0, 0, 0, .TYPE_FILE⟩ 0 false =
      (.OK,
       [⟨1, 0, "A1", 0, 1, 0, .TYPE_FILE⟩, ⟨1, 0, "A2", 0, 2, 0, .TYPE_FILE⟩,
        ⟨1, 0, "A3", 0, 3, 0, .TYPE_FILE⟩, ⟨1, 0, "A4", 0, 4, 0, .TYPE_FILE⟩,
        ⟨1, 0, "A5", 0, 5, 0, .TYPE_FILE⟩]) := by decide

theorem test_list_case2 :
    DentryStorage.ListOp
        [⟨1, 0, "A1", 0, 1, 0, .TYPE_FILE⟩, ⟨1, 0, "A2", 0, 2, 0, .TYPE_FILE⟩,
         ⟨1, 0, "A3", 0, 3, 0, .TYPE_FILE⟩, ⟨1, 0, "A4", 0, 4, 0, .TYPE_FILE⟩,
         ⟨1, 0, "A5", 0, 5, 0, .TYPE_FILE⟩]
        ⟨1, 0, "A3", 0, 0, 0, .TYPE_FILE⟩ 0 false =
      (.OK,
       [⟨1, 0, "A4", 0, 4, 0, .TYPE_FILE⟩,
        ⟨1, 0, "A5", 0, 5, 0, .TYPE_FILE⟩]) := by decide

theorem test_list_case3 :
    DentryStorage.ListOp
        [⟨1, 0, "A1", 1, 1, 0, .TYPE_FILE⟩, ⟨1, 0, "A2", 2, 2, 0, .TYPE_FILE⟩,
         ⟨1, 0, "A3", 3, 3, 0, .TYPE_FILE⟩]
        ⟨1, 0, "", 2, 0, 0, .TYPE_FILE⟩ 0 false =
      (.OK,
       [⟨1, 0, "A1", 1, 1, 0, .TYPE_FILE⟩,
        ⟨1, 0, "A2", 2, 2, 0, .TYPE_FILE⟩]) := by decide

theorem test_list_case4 :
    DentryStorage.ListOp
        [⟨1, 0, "A1", 1, 1, 0, .TYPE_FILE⟩, ⟨1, 0, "A2", 2, 2, 0, .TYPE_FILE⟩,
         ⟨1, 0, "A3", 3, 3, 0, .TYPE_FILE⟩]
        ⟨1, 0, "", 4, 0, 0, .TYPE_FILE⟩ 0 false =
      (.OK,
       [⟨1, 0, "A1", 1, 1, 0, .TYPE_FILE⟩, ⟨1, 0, "A2", 2, 2, 0, .TYPE_FILE⟩,
        ⟨1, 0, "A3", 3, 3, 0, .TYPE_FILE⟩]) := by decide

theorem test_list_case5 :
    DentryStorage.ListOp
        [⟨1, 0, "A1", 1, 1, 0, .TYPE_FILE⟩, ⟨1, 0, "A2", 2, 2, 2, .TYPE_FILE⟩,
         ⟨1, 0, "A3", 3, 3, 0, .TYPE_FILE⟩]
        ⟨1, 0, "", 3, 0, 0, .TYPE_FILE⟩ 0 false =
      (.OK,
       [⟨1, 0, "A1", 1, 1, 0, .TYPE_FILE⟩,
        ⟨1, 0, "A3", 3, 3, 0, .TYPE_FILE⟩]) := by decide

theorem test_list_case6 :
    DentryStorage.ListOp
        [⟨1, 0, "A", 0, 1, 0, .TYPE_FILE⟩, ⟨1, 0, "A", 1, 1, 0, .TYPE_FILE⟩,
         ⟨1, 0, "A", 2, 1, 0, .TYPE_FILE⟩]
        ⟨1, 0, "", 2, 0, 0, .TYPE_FILE⟩ 0 false =
      (.OK, [⟨1, 0, "A", 2, 1, 0, .TYPE_FILE⟩]) := by decide

theorem test_list_case7 :
    DentryStorage.ListOp
        [⟨1, 0, "A", 0, 1, 0, .TYPE_FILE⟩, ⟨1, 0, "B", 0, 2, 0, .TYPE_FILE⟩,
         ⟨1, 2, "C", 0, 3, 0, .TYPE_FILE⟩, ⟨1, 2, "D", 0, 4, 0, .TYPE_FILE⟩,
         ⟨1, 2, "E", 0, 5, 0, .TYPE_FILE⟩, ⟨1, 4, "F", 0, 6, 2, .TYPE_FILE⟩,
         ⟨1, 4, "G", 0, 7, 0, .TYPE_FILE⟩]
        ⟨1, 2, "", 0, 0, 0, .TYPE_FILE⟩ 0 false =
      (.OK,
       [⟨1, 2, "C", 0, 3, 0, .TYPE_FILE⟩, ⟨1, 2, "D", 0, 4, 0, .TYPE_FILE⟩,
        ⟨1, 2, "E", 0, 5, 0, .TYPE_FILE⟩]) ∧
    DentryStorage.ListOp
        [⟨1, 0, "A", 0, 1, 0, .TYPE_FILE⟩, ⟨1, 0, "B", 0, 2, 0, .TYPE_FILE⟩,
         ⟨1, 2, "C", 0, 3, 0, .TYPE_FILE⟩, ⟨1, 2, "D", 0, 4, 0, .TYPE_FILE⟩,
         ⟨1, 2, "E", 0, 5, 0, .TYPE_FILE⟩, ⟨1, 4, "F", 0, 6, 2, .TYPE_FILE⟩,
         ⟨1, 4, "G", 0, 7, 0, .TYPE_FILE⟩]
        ⟨1, 4, "", 0, 0, 0, .TYPE_FILE⟩ 0 false =
      (.OK, [⟨1, 4, "G", 0, 7, 0, .TYPE_FILE⟩]) := by decide

theorem test_list_case8 :
    DentryStorage.ListOp
        [⟨1, 0, "A", 0, 1, 0, .TYPE_FILE⟩, ⟨1, 0, "B", 0, 2, 0, .TYPE_FILE⟩,
         ⟨1, 2, "D", 0, 4, 2, .TYPE_FILE⟩, ⟨1, 2, "E", 0, 5, 2, .TYPE_FILE⟩]
        ⟨1, 2, "", 0, 0, 0, .TYPE_FILE⟩ 0 false = (.OK, []) ∧
    DentryStorage.ListOp
        [⟨1, 0, "A", 0, 1, 0, .TYPE_FILE⟩, ⟨1, 0, "B", 0, 2, 0, .TYPE_FILE⟩,
         ⟨1, 2, "D", 0, 4, 2, .TYPE_FILE⟩, ⟨1, 2, "E", 0, 5, 2, .TYPE_FILE⟩]
        ⟨1, 3, "", 0, 0, 0, .TYPE_FILE⟩ 0 false = (.OK, []) ∧
    DentryStorage.ListOp
        [⟨1, 0, "A", 0, 1, 0, .TYPE_FILE⟩, ⟨1, 0, "B", 0, 2, 0, .TYPE_FILE⟩,
         ⟨1, 2, "D", 0, 4, 2, .TYPE_FILE⟩, ⟨1, 2, "E", 0, 5, 2, .TYPE_FILE⟩]
        ⟨2, 0, "", 0, 0, 0, .TYPE_FILE⟩ 0 false = (.OK, []) := by decide

theorem test_list_case9 :
    DentryStorage.ListOp
        [⟨1, 0, "A", 0, 1, 0, .TYPE_DIRECTORY⟩,
         ⟨1, 0, "B", 0, 2, 2, .TYPE_DIRECTORY⟩,
         ⟨1, 0, "D", 0, 3, 0, .TYPE_FILE⟩, ⟨1, 0, "E", 0, 4, 0, .TYPE_FILE⟩]
        ⟨1, 0, "", 0, 0, 0, .TYPE_FILE⟩ 0 true =
      (.OK, [⟨1, 0, "A", 0, 1, 0, .TYPE_DIRECTORY⟩]) := by decide

theorem test_handletx_case1 :
    DentryStorage.PrepareTx [⟨1, 0, "A", 0, 1, 0, .TYPE_FILE⟩]
        [⟨1, 0, "A", 1, 2, 0, .TYPE_FILE⟩] =
      (.OK, [⟨1, 0, "A", 0, 1, 0, .TYPE_FILE⟩,
             ⟨1, 0, "A", 1, 2, 0, .TYPE_FILE⟩]) := by decide

theorem test_handletx_case2 :
    DentryStorage.PrepareTx
        [⟨1, 0, "A", 0, 1, 0, .TYPE_FILE⟩, ⟨1, 0, "A", 1, 2, 0, .TYPE_FILE⟩]
        [⟨1, 0, "A", 1, 2, 0, .TYPE_FILE⟩] =
      (.OK, [⟨1, 0, "A", 0, 1, 0, .TYPE_FILE⟩,
             ⟨1, 0, "A", 1, 2, 0, .TYPE_FILE⟩]) := by decide

theorem test_handletx_case3 :
    DentryStorage.CommitTx
        [⟨1, 0, "A", 0, 1, 0, .TYPE_FILE⟩, ⟨1, 0, "A", 1, 2, 0, .TYPE_FILE⟩]
        [⟨1, 0, "A", 1, 2, 0, .TYPE_FILE⟩] =
      (.OK, [⟨1, 0, "A", 1, 2, 0, .TYPE_FILE⟩]) ∧
    DentryStorage.Get [⟨1, 0, "A", 1, 2, 0, .TYPE_FILE⟩]
        ⟨1, 0, "A", 1, 0, 0, .TYPE_FILE⟩ =
      (.OK, some ⟨1, 0, "A", 1, 2, 0, .TYPE_FILE⟩) := by decide

theorem test_handletx_case3_tombstone :
    DentryStorage.CommitTx
        [⟨1, 0, "A", 0, 1, 0, .TYPE_FILE⟩, ⟨1, 0, "A", 1, 1, 2, .TYPE_FILE⟩]
        [⟨1, 0, "A", 1, 0, 0, .TYPE_FILE⟩] = (.OK, []) := by decide

theorem test_handletx_case4 :
    DentryStorage.RollbackTx
        [⟨1, 0, "A", 0, 1, 0, .TYPE_FILE⟩, ⟨1, 0, "A", 1, 2, 0, .TYPE_FILE⟩]
        [⟨1, 0, "A", 1, 2, 0, .TYPE_FILE⟩] =
      (.OK, [⟨1, 0, "A", 0, 1, 0, .TYPE_FILE⟩]) ∧
    DentryStorage.Get [⟨1, 0, "A", 0, 1, 0, .TYPE_FILE⟩]
        ⟨1, 0, "A", 1, 0, 0, .TYPE_FILE⟩ =
      (.OK, some ⟨1, 0, "A", 0, 1, 0, .TYPE_FILE⟩) := by decide

/-! ## Cleanup subsystem: `CleanCore` (`src/mds/nameserver2/clean_core.cpp`)

This part is embedded directly from the source file.  The storage and
copyset-client collaborators are injected as an environment of response
functions; every remote-effect call the code performs (chunk deletion,
segment deletion, file-record deletion) is recorded in an event trace, and
the `TaskProgress` object is threaded through explicitly. -/

inductive StatusCode where
  | kOK
  | KInternalError
  | kSnapshotFileDeleteError
  | kCommonFileDeleteError
deriving DecidableEq, Repr

inductive StoreStatus where
  | OK
  | KeyNotExist
  | InternalError
deriving DecidableEq, Repr

inductive TaskStatus where
  | PROGRESSING
  | FAILED
  | SUCCESS
deriving DecidableEq, Repr

structure TaskProgress where
  progress : Nat
  status : TaskStatus
deriving DecidableEq, Repr

structure PageFileChunk where
  copysetid : Nat
  chunkid : Nat
deriving DecidableEq, Repr

structure PageFileSegment where
  logicalpoolid : Nat
  chunks : List PageFileChunk
deriving DecidableEq, Repr

structure FileInfo where
  id : Nat
  parentid : Nat
  filename : String
  fullpathname : String
  length : Nat
  segmentsize : Nat
  seqnum : Nat
deriving DecidableEq, Repr

/-- The external collaborators of `CleanCore` (`storage_` and
`copysetClient_`), injected as response functions: `getSegment id offset`
models `storage_->GetSegment`, the two chunk-deletion functions model
`copysetClient_->DeleteChunkSnapshotOrCorrectSn` / `DeleteChunk` (returning
the `int` result the code compares with 0), and the two file-record
deletions model `storage_->DeleteSnapshotFile` / `DeleteRecycleFile`.
`deleteSegment` models `storage_->DeleteSegment`. -/
structure CleanEnv where
  getSegment : Nat → Nat → StoreStatus × PageFileSegment
  deleteChunkSnapshotOrCorrectSn : Nat → Nat → Nat → Nat → Int
  deleteChunk : Nat → Nat → Nat → Nat → Int
  deleteSegment : Nat → Nat → StoreStatus
  deleteSnapshotFile : Nat → String → StoreStatus
  deleteRecycleFile : Nat → String → StoreStatus

/-- One observable effect performed by a cleanup run. -/
inductive CleanEvent where
  | deleteChunkSnapshotOrCorrectSn (pool copyset chunk correctSn : Nat)
  | deleteChunk (pool copyset chunk seq : Nat)
  | deleteSegment (id offset : Nat)
  | deleteSnapshotFile (parentid : Nat) (filename : String)
  | deleteRecycleFile (parentid : Nat) (filename : String)
  | setProgress (p : Nat)
  | setStatus (st : TaskStatus)
deriving DecidableEq, Repr

/-- `progress->SetProgress(p)`. -/
def TaskProgress.setProgress (tp : TaskProgress) (p : Nat) : TaskProgress :=
  { tp with progress := p }

/-- `progress->SetStatus(st)`. -/
def TaskProgress.setStatus (tp : TaskProgress) (st : TaskStatus) :
    TaskProgress :=
  { tp with status := st }

/-- The chunk loop of `CleanSnapShotFile` (clean_core.cpp lines 36-56):
for each chunk of the segment, call
`DeleteChunkSnapshotOrCorrectSn(pool, copysetid, chunkid, seqnum + 1)`;
a non-zero result sets the task status to `FAILED` and aborts with
`kSnapshotFileDeleteError`. -/
def snapChunkLoop (env : CleanEnv) (fileInfo : FileInfo) (pool : Nat) :
    List PageFileChunk → TaskProgress → List CleanEvent →
    Option StatusCode × TaskProgress × List CleanEvent
  | [], tp, tr => (none, tp, tr)
  | c :: cs, tp, tr =>
    let correctSn := fileInfo.seqnum + 1
    let ret := env.deleteChunkSnapshotOrCorrectSn pool c.copysetid c.chunkid
      correctSn
    let tr := tr ++
      [CleanEvent.deleteChunkSnapshotOrCorrectSn pool c.copysetid c.chunkid
        correctSn]
    if ret ≠ 0 then
      (some StatusCode.kSnapshotFileDeleteError,
       tp.setStatus TaskStatus.FAILED,
       tr ++ [CleanEvent.setStatus TaskStatus.FAILED])
    else snapChunkLoop env fileInfo pool cs tp tr

/-- The segment loop of `CleanSnapShotFile` (clean_core.cpp lines 19-58):
for `i` from 0 while `i < segmentNum`, load the segment at offset
`i * segmentsize` (a missing key is skipped, any other storage failure sets
`FAILED` and aborts with `kSnapshotFileDeleteError`), delete its chunk
snapshots, then report `100 * (i + 1) / segmentNum` progress. -/
def snapSegLoop (env : CleanEnv) (fileInfo : FileInfo) (segmentNum : Nat) :
    List Nat → TaskProgress → List CleanEvent →
    Option StatusCode × TaskProgress × List CleanEvent
  | [], tp, tr => (none, tp, tr)
  | i :: is, tp, tr =>
    match env.getSegment fileInfo.parentid (i * fileInfo.segmentsize) with
    | (StoreStatus.KeyNotExist, _) => snapSegLoop env fileInfo segmentNum is tp tr
    | (StoreStatus.OK, segment) =>
      match snapChunkLoop env fileInfo segment.logicalpoolid segment.chunks
          tp tr with
      | (some rc, tp, tr) => (some rc, tp, tr)
      | (none, tp, tr) =>
        let p := 100 * (i + 1) / segmentNum
        snapSegLoop env fileInfo segmentNum is (tp.setProgress p)
          (tr ++ [CleanEvent.setProgress p])
    | (_, _) =>
      (some StatusCode.kSnapshotFileDeleteError,
       tp.setStatus TaskStatus.FAILED, tr ++ [CleanEvent.setStatus TaskStatus.FAILED])

/-- `CleanCore::CleanSnapShotFile` (clean_core.cpp lines 12-75).
A zero `segmentsize` is rejected up front with `KInternalError`; otherwise
`segmentNum = length / segmentsize` (an exact `uint32_t`, modelled with the
`% 2^32` reduction of the `uint64 / uint64 → uint32` conversion), each
segment is processed by `snapSegLoop`, the snapshot file record is deleted,
and on success the task reports progress 100 and `SUCCESS`. -/
def CleanCore.CleanSnapShotFile (env : CleanEnv) (fileInfo : FileInfo)
    (progress : TaskProgress) : StatusCode × TaskProgress × List CleanEvent :=
  if fileInfo.segmentsize = 0 then (StatusCode.KInternalError, progress, [])
  else
    let segmentNum := fileInfo.length / fileInfo.segmentsize % 2 ^ 32
    match snapSegLoop env fileInfo segmentNum (List.range segmentNum)
        progress [] with
    | (some rc, tp, tr) => (rc, tp, tr)
    | (none, tp, tr) =>
      let ret := env.deleteSnapshotFile fileInfo.parentid fileInfo.filename
      let tr := tr ++
        [CleanEvent.deleteSnapshotFile fileInfo.parentid fileInfo.filename]
      if ret ≠ StoreStatus.OK then
        (StatusCode.kSnapshotFileDeleteError, tp.setStatus TaskStatus.FAILED,
         tr ++ [CleanEvent.setStatus TaskStatus.FAILED])
      else
        (StatusCode.kOK,
         (tp.setProgress 100).setStatus TaskStatus.SUCCESS,
         tr ++ [CleanEvent.setProgress 100,
                CleanEvent.setStatus TaskStatus.SUCCESS])

/-- The chunk loop of `CleanFile` (clean_core.cpp lines 99-116): for each
chunk, `DeleteChunk(pool, copysetid, chunkid, seqnum)`; a non-zero result
sets `FAILED` and aborts with `kCommonFileDeleteError`. -/
def fileChunkLoop (env : CleanEnv) (commonFile : FileInfo) (pool : Nat) :
    List PageFileChunk → TaskProgress → List CleanEvent →
    Option StatusCode × TaskProgress × List CleanEvent
  | [], tp, tr => (none, tp, tr)
  | c :: cs, tp, tr =>
    let seq := commonFile.seqnum
    let ret := env.deleteChunk pool c.copysetid c.chunkid seq
    let tr := tr ++ [CleanEvent.deleteChunk pool c.copysetid c.chunkid seq]
    if ret ≠ 0 then
      (some StatusCode.kCommonFileDeleteError,
       tp.setStatus TaskStatus.FAILED,
       tr ++ [CleanEvent.setStatus TaskStatus.FAILED])
    else fileChunkLoop env commonFile pool cs tp tr

/-- The segment loop of `CleanFile` (clean_core.cpp lines 85-130): like the
snapshot one, but segments are addressed by `commonFile.id()`, the chunks
are deleted with `DeleteChunk`, and each processed segment is itself
deleted from storage before progress is reported. -/
def fileSegLoop (env : CleanEnv) (commonFile : FileInfo) (segmentNum : Nat) :
    List Nat → TaskProgress → List CleanEvent →
    Option StatusCode × TaskProgress × List CleanEvent
  | [], tp, tr => (none, tp, tr)
  | i :: is, tp, tr =>
    match env.getSegment commonFile.id (i * commonFile.segmentsize) with
    | (StoreStatus.KeyNotExist, _) => fileSegLoop env commonFile segmentNum is tp tr
    | (StoreStatus.OK, segment) =>
      match fileChunkLoop env commonFile segment.logicalpoolid segment.chunks
          tp tr with
      | (some rc, tp, tr) => (some rc, tp, tr)
      | (none, tp, tr) =>
        let storeRet := env.deleteSegment commonFile.id
          (i * commonFile.segmentsize)
        let tr := tr ++
          [CleanEvent.deleteSegment commonFile.id (i * commonFile.segmentsize)]
        if storeRet ≠ StoreStatus.OK then
          (some StatusCode.kCommonFileDeleteError,
           tp.setStatus TaskStatus.FAILED,
           tr ++ [CleanEvent.setStatus TaskStatus.FAILED])
        else
          let p := 100 * (i + 1) / segmentNum
          fileSegLoop env commonFile segmentNum is (tp.setProgress p)
            (tr ++ [CleanEvent.setProgress p])
    | (_, _) =>
      (some StatusCode.kCommonFileDeleteError,
       tp.setStatus TaskStatus.FAILED, tr ++ [CleanEvent.setStatus TaskStatus.FAILED])

/-- `CleanCore::CleanFile` (clean_core.cpp lines 77-147).
A zero `segmentsize` is rejected up front with `KInternalError`; otherwise
`segmentNum = length / segmentsize` (stored in an `int`; the loop runs
`i = 0, 1, ...` while `i != segmentNum`, which for the non-negative
quotients representable in an `int` is `segmentNum` iterations — for a
quotient exceeding `INT_MAX` the C++ conversion is implementation-defined
and the loop could fail to terminate, which this total model does not
reproduce; the claims proved below only concern the zero-`segmentsize`
guard), each segment is cleaned and deleted, the recycle-bin file record is
deleted, and on success the task reports progress 100 and `SUCCESS`. -/
def CleanCore.CleanFile (env : CleanEnv) (commonFile : FileInfo)
    (progress : TaskProgress) : StatusCode × TaskProgress × List CleanEvent :=
  if commonFile.segmentsize = 0 then (StatusCode.KInternalError, progress, [])
  else
    let segmentNum := commonFile.length / commonFile.segmentsize % 2 ^ 32
    match fileSegLoop env commonFile segmentNum (List.range segmentNum)
        progress [] with
    | (some rc, tp, tr) => (rc, tp, tr)
    | (none, tp, tr) =>
      let ret := env.deleteRecycleFile commonFile.parentid commonFile.filename
      let tr := tr ++
        [CleanEvent.deleteRecycleFile commonFile.parentid commonFile.filename]
      if ret ≠ StoreStatus.OK then
        (StatusCode.kCommonFileDeleteError, tp.setStatus TaskStatus.FAILED,
         tr ++ [CleanEvent.setStatus TaskStatus.FAILED])
      else
        (StatusCode.kOK,
         (tp.setProgress 100).setStatus TaskStatus.SUCCESS,
         tr ++ [CleanEvent.setProgress 100,
                CleanEvent.setStatus TaskStatus.SUCCESS])

/-! ## Lemma layer: chains, the resolver, and the row primitives -/

theorem mem_chainAt {s : Store} {f p : Nat} {n : String} {r : Dentry} :
    r ∈ chainAt s f p n ↔
      r ∈ s ∧ r.fsId = f ∧ r.parentInodeId = p ∧ r.name = n := by
  simp [chainAt, List.mem_filter]

theorem mem_chainOf {s : Store} {d r : Dentry} :
    r ∈ chainOf s d ↔ r ∈ s ∧ sameName r d := by
  simp [chainOf, mem_chainAt, sameName]

theorem chainAt_sameName {f p : Nat} {n : String} {a b : Dentry}
    (ha : a ∈ chainAt s f p n) (hb : b ∈ chainAt s f p n) : sameName a b := by
  obtain ⟨-, e1, e2, e3⟩ := mem_chainAt.mp ha
  obtain ⟨-, e1', e2', e3'⟩ := mem_chainAt.mp hb
  exact ⟨e1.trans e1'.symm, e2.trans e2'.symm, e3.trans e3'.symm⟩

theorem chainAt_pairwise {s : Store} (hwf : WF s) (f p : Nat) (n : String) :
    (chainAt s f p n).Pairwise (fun a b => a.txId < b.txId) := by
  have h1 : (chainAt s f p n).Pairwise keyLt :=
    hwf.sublist (List.filter_sublist s)
  refine List.Pairwise.imp_of_mem ?_ h1
  intro a b ha hb hlt
  exact (keyLt_iff_txLt_of_sameName (chainAt_sameName ha hb)).mp hlt

theorem chainOf_pairwise {s : Store} (hwf : WF s) (d : Dentry) :
    (chainOf s d).Pairwise (fun a b => a.txId < b.txId) :=
  chainAt_pairwise hwf d.fsId d.parentInodeId d.name

theorem getLast?_mem' {α : Type _} {l : List α} {x : α}
    (h : l.getLast? = some x) : x ∈ l := by
  obtain ⟨hne, rfl⟩ := List.mem_getLast?_eq_getLast h
  exact List.getLast_mem hne

theorem pairwise_rel_getLast {α : Type _} {R : α → α → Prop} :
    ∀ {l : List α} {x : α}, l.Pairwise R → l.getLast? = some x →
      ∀ a ∈ l, a = x ∨ R a x
  | [], x, _, h => by simp at h
  | [a], x, _, h => by
    intro b hb
    simp at h hb
    exact Or.inl (hb.trans h)
  | a :: b :: t, x, hp, h => by
    rw [List.getLast?_cons_cons] at h
    intro c hc
    rcases List.mem_cons.mp hc with rfl | hc
    · exact Or.inr ((List.pairwise_cons.mp hp).1 x (getLast?_mem' h))
    · exact pairwise_rel_getLast (List.pairwise_cons.mp hp).2 h c hc

theorem getLast?_eq_of_pairwise_max {α : Type _} {R : α → α → Prop}
    {l : List α} {x : α} (hp : l.Pairwise R) (hx : x ∈ l)
    (hmax : ∀ a ∈ l, ¬ R x a) : l.getLast? = some x := by
  induction l with
  | nil => cases hx
  | cons a t ih =>
    rcases List.mem_cons.mp hx with rfl | hx'
    · cases t with
      | nil => rfl
      | cons b u =>
        exact absurd ((List.pairwise_cons.mp hp).1 b (List.mem_cons_self b u))
          (hmax b (List.mem_cons_of_mem _ (List.mem_cons_self b u)))
    · have htail := (List.pairwise_cons.mp hp).2
      have hres := ih htail hx' (fun c hc => hmax c (List.mem_cons_of_mem _ hc))
      cases t with
      | nil => cases hx'
      | cons b u => rw [List.getLast?_cons_cons]; exact hres

theorem resolveRow_mem {chain : List Dentry} {S : Nat} {r : Dentry}
    (h : resolveRow chain S = some r) : r ∈ chain ∧ r.txId ≤ S := by
  have hmem := getLast?_mem' h
  have := List.mem_filter.mp hmem
  exact ⟨this.1, by simpa using this.2⟩

theorem resolveRow_eq_none_iff {chain : List Dentry} {S : Nat} :
    resolveRow chain S = none ↔ ∀ r ∈ chain, S < r.txId := by
  unfold resolveRow
  rw [List.getLast?_eq_none_iff]
  constructor
  · intro h r hr
    by_contra hnot
    have : r ∈ chain.filter (fun r => decide (r.txId ≤ S)) :=
      List.mem_filter.mpr ⟨hr, by simpa using Nat.le_of_not_lt hnot⟩
    rw [h] at this
    cases this
  · intro h
    apply List.filter_eq_nil_iff.mpr
    intro r hr
    simpa using Nat.not_le_of_lt (h r hr)

theorem resolveRow_eq_some_of_max {chain : List Dentry} {S : Nat} {r : Dentry}
    (hp : chain.Pairwise (fun a b => a.txId < b.txId)) (hr : r ∈ chain)
    (hle : r.txId ≤ S) (hmax : ∀ y ∈ chain, y.txId ≤ S → y.txId ≤ r.txId) :
    resolveRow chain S = some r := by
  unfold resolveRow
  apply getLast?_eq_of_pairwise_max (hp.sublist (List.filter_sublist chain))
  · exact List.mem_filter.mpr ⟨hr, by simpa using hle⟩
  · intro a ha
    have ha' := List.mem_filter.mp ha
    have := hmax a ha'.1 (by simpa using ha'.2)
    omega

theorem resolveRow_eq_some_iff {chain : List Dentry} {S : Nat} {r : Dentry}
    (hp : chain.Pairwise (fun a b => a.txId < b.txId)) :
    resolveRow chain S = some r ↔
      r ∈ chain ∧ r.txId ≤ S ∧ ∀ y ∈ chain, y.txId ≤ S → y.txId ≤ r.txId := by
  constructor
  · intro h
    obtain ⟨hmem, hle⟩ := resolveRow_mem h
    refine ⟨hmem, hle, ?_⟩
    intro y hy hyle
    have hyf : y ∈ chain.filter (fun r => decide (r.txId ≤ S)) :=
      List.mem_filter.mpr ⟨hy, by simpa using hyle⟩
    rcases pairwise_rel_getLast (hp.sublist (List.filter_sublist chain)) h
        y hyf with rfl | hlt
    · exact le_rfl
    · exact Nat.le_of_lt hlt
  · rintro ⟨hmem, hle, hmax⟩
    exact resolveRow_eq_some_of_max hp hmem hle hmax

theorem Resolve_eq_some_iff {chain : List Dentry} {S : Nat} {r : Dentry}
    (hp : chain.Pairwise (fun a b => a.txId < b.txId)) :
    Resolve chain S = some r ↔
      r ∈ chain ∧ r.txId ≤ S ∧ hasDeleteMark r = false ∧
        ∀ y ∈ chain, y.txId ≤ S → y.txId ≤ r.txId := by
  constructor
  · intro h
    match hres : resolveRow chain S with
    | none => simp [Resolve, hres] at h
    | some v =>
      by_cases hdel : hasDeleteMark v
      · simp [Resolve, hres, hdel] at h
      · simp [Resolve, hres, hdel] at h
        cases h
        obtain ⟨hmem, hle, hmax⟩ := (resolveRow_eq_some_iff hp).mp hres
        exact ⟨hmem, hle, Bool.eq_false_iff.mpr hdel, hmax⟩
  · rintro ⟨hmem, hle, hdel, hmax⟩
    simp [Resolve, (resolveRow_eq_some_iff hp).mpr ⟨hmem, hle, hmax⟩, hdel]

theorem Resolve_eq_none_of_all_newer {chain : List Dentry} {S : Nat}
    (h : ∀ r ∈ chain, S < r.txId) : Resolve chain S = none := by
  simp [Resolve, resolveRow_eq_none_iff.mpr h]

theorem Resolve_eq_none_of_tombstone {chain : List Dentry} {S : Nat}
    {r : Dentry} (hres : resolveRow chain S = some r)
    (hdel : hasDeleteMark r = true) : Resolve chain S = none := by
  simp [Resolve, hres, hdel]

theorem findExact_eq_none_iff {s : Store} {d : Dentry} :
    findExact s d = none ↔ ∀ r ∈ s, ¬ sameKey r d := by
  unfold findExact
  rw [List.find?_eq_none]
  constructor
  · intro h r hr hk
    exact absurd (decide_eq_true hk) (by simpa using h r hr)
  · intro h r hr
    simpa using h r hr

theorem findExact_some {s : Store} {d r : Dentry}
    (h : findExact s d = some r) : r ∈ s ∧ sameKey r d := by
  refine ⟨List.mem_of_find?_eq_some h, ?_⟩
  have := List.find?_some h
  simpa using this

theorem sameKey_refl (a : Dentry) : sameKey a a := ⟨⟨rfl, rfl, rfl⟩, rfl⟩

theorem insertRow_nil (d : Dentry) : insertRow d [] = [d] := rfl

theorem insertRow_cons (d r : Dentry) (rs : Store) :
    insertRow d (r :: rs) =
      if keyLt d r then d :: r :: rs
      else if sameKey d r then d :: rs
      else r :: insertRow d rs := rfl

theorem sameKey_symm {a b : Dentry} (h : sameKey a b) : sameKey b a :=
  ⟨sameName_symm h.1, h.2.symm⟩

theorem keyLt_congr_left {a b c : Dentry} (h : sameKey a b) :
    keyLt a c ↔ keyLt b c := by
  obtain ⟨⟨e1, e2, e3⟩, e4⟩ := h
  unfold keyLt
  rw [e1, e2, e3, e4]

theorem not_keyLt_of_sameKey {a b : Dentry} (h : sameKey a b) :
    ¬ keyLt a b := by
  rw [keyLt_congr_left h]
  exact keyLt_irrefl b

theorem mem_insertRow_self (d : Dentry) (s : Store) : d ∈ insertRow d s := by
  induction s with
  | nil => simp [insertRow]
  | cons r rs ih =>
    unfold insertRow
    by_cases h1 : keyLt d r
    · simp [h1]
    · by_cases h2 : sameKey d r
      · simp [h1, h2]
      · simp only [if_neg h1, if_neg h2]
        exact List.mem_cons_of_mem r ih

theorem mem_of_mem_insertRow {d r : Dentry} {s : Store}
    (h : r ∈ insertRow d s) : r = d ∨ r ∈ s := by
  induction s with
  | nil => simpa [insertRow] using h
  | cons x xs ih =>
    unfold insertRow at h
    by_cases h1 : keyLt d x
    · rw [if_pos h1] at h
      rcases List.mem_cons.mp h with rfl | h'
      · exact Or.inl rfl
      · exact Or.inr h'
    · rw [if_neg h1] at h
      by_cases h2 : sameKey d x
      · rw [if_pos h2] at h
        rcases List.mem_cons.mp h with rfl | h'
        · exact Or.inl rfl
        · exact Or.inr (List.mem_cons_of_mem x h')
      · rw [if_neg h2] at h
        rcases List.mem_cons.mp h with rfl | h'
        · exact Or.inr (List.mem_cons_self r xs)
        · rcases ih h' with h'' | h''
          · exact Or.inl h''
          · exact Or.inr (List.mem_cons_of_mem x h'')

theorem mem_insertRow_of_mem {d r : Dentry} {s : Store} (hmem : r ∈ s)
    (hkey : ¬ sameKey d r) : r ∈ insertRow d s := by
  induction s with
  | nil => cases hmem
  | cons x xs ih =>
    unfold insertRow
    by_cases h1 : keyLt d x
    · rw [if_pos h1]
      exact List.mem_cons_of_mem d hmem
    · rw [if_neg h1]
      by_cases h2 : sameKey d x
      · rw [if_pos h2]
        rcases List.mem_cons.mp hmem with rfl | h'
        · exact absurd h2 hkey
        · exact List.mem_cons_of_mem d h'
      · rw [if_neg h2]
        rcases List.mem_cons.mp hmem with rfl | h'
        · exact List.mem_cons_self r _
        · exact List.mem_cons_of_mem x (ih h')

theorem WF_insertRow {d : Dentry} {s : Store} (hwf : WF s) :
    WF (insertRow d s) := by
  induction s with
  | nil => simp [insertRow, WF]
  | cons r rs ih =>
    have hhead := (List.pairwise_cons.mp hwf).1
    have htail := (List.pairwise_cons.mp hwf).2
    unfold insertRow
    by_cases h1 : keyLt d r
    · rw [if_pos h1]
      refine List.pairwise_cons.mpr ⟨?_, hwf⟩
      intro x hx
      rcases List.mem_cons.mp hx with rfl | hx'
      · exact h1
      · exact keyLt_trans h1 (hhead x hx')
    · rw [if_neg h1]
      by_cases h2 : sameKey d r
      · rw [if_pos h2]
        refine List.pairwise_cons.mpr ⟨?_, htail⟩
        intro x hx
        exact (keyLt_congr_left h2).mpr (hhead x hx)
      · rw [if_neg h2]
        refine List.pairwise_cons.mpr ⟨?_, ih htail⟩
        intro x hx
        rcases mem_of_mem_insertRow hx with rfl | hx'
        · rcases keyLt_of_not_sameKey h2 with h' | h'
          · exact absurd h' h1
          · exact h'
        · exact hhead x hx'

theorem insertRow_eq_self {d : Dentry} {s : Store} (hwf : WF s)
    (hd : d ∈ s) : insertRow d s = s := by
  induction s with
  | nil => cases hd
  | cons r rs ih =>
    have hhead := (List.pairwise_cons.mp hwf).1
    have htail := (List.pairwise_cons.mp hwf).2
    unfold insertRow
    rcases List.mem_cons.mp hd with rfl | hd'
    · rw [if_neg (keyLt_irrefl d), if_pos (sameKey_refl d)]
    · have hrd : keyLt r d := hhead d hd'
      have h1 : ¬ keyLt d r := keyLt_asymm hrd
      have h2 : ¬ sameKey d r := by
        intro h2
        exact not_keyLt_of_sameKey (sameKey_symm h2) hrd
      rw [if_neg h1, if_neg h2, ih htail hd']

theorem length_insertRow_of_no_exact {d : Dentry} {s : Store}
    (h : ∀ r ∈ s, ¬ sameKey r d) :
    (insertRow d s).length = s.length + 1 := by
  induction s with
  | nil => simp [insertRow]
  | cons r rs ih =>
    unfold insertRow
    by_cases h1 : keyLt d r
    · simp [h1]
    · by_cases h2 : sameKey d r
      · exact absurd (sameKey_symm h2) (h r (List.mem_cons_self r rs))
      · simp only [if_neg h1, if_neg h2, List.length_cons]
        rw [ih (fun x hx => h x (List.mem_cons_of_mem r hx))]

theorem insertRow_all_gt {d : Dentry} {l : Store}
    (h : ∀ x ∈ l, keyLt d x) : insertRow d l = d :: l := by
  cases l with
  | nil => rfl
  | cons x xs =>
    unfold insertRow
    rw [if_pos (h x (List.mem_cons_self x xs))]

theorem filter_insertRow {d : Dentry} {s : Store} {q : Dentry → Bool}
    (hwf : WF s) (hq : ∀ r, sameKey r d → q r = q d) :
    (insertRow d s).filter q =
      if q d then insertRow d (s.filter q) else s.filter q := by
  induction s with
  | nil =>
    by_cases hqd : q d = true <;> simp [insertRow, List.filter_cons, hqd]
  | cons r rs ih =>
    have hhead := (List.pairwise_cons.mp hwf).1
    have htail := (List.pairwise_cons.mp hwf).2
    rw [insertRow_cons]
    by_cases h1 : keyLt d r
    · rw [if_pos h1]
      have hall : ∀ x ∈ (r :: rs).filter q, keyLt d x := by
        intro x hx
        rcases List.mem_cons.mp (List.mem_of_mem_filter hx) with rfl | hx'
        · exact h1
        · exact keyLt_trans h1 (hhead x hx')
      by_cases hqd : q d = true
      · rw [List.filter_cons, if_pos hqd, if_pos hqd, insertRow_all_gt hall]
      · rw [List.filter_cons, if_neg hqd, if_neg hqd]
    · rw [if_neg h1]
      by_cases h2 : sameKey d r
      · rw [if_pos h2]
        have hqr : q r = q d := hq r (sameKey_symm h2)
        by_cases hqd : q d = true
        · rw [List.filter_cons, if_pos hqd, if_pos hqd, List.filter_cons,
            if_pos (hqr.trans hqd), insertRow_cons, if_neg h1, if_pos h2]
        · have hqr' : ¬ (q r = true) := by rw [hqr]; exact hqd
          rw [List.filter_cons, if_neg hqd, if_neg hqd, List.filter_cons,
            if_neg hqr']
      · rw [if_neg h2]
        have hih := ih htail
        by_cases hqd : q d = true
        · rw [if_pos hqd] at hih ⊢
          by_cases hqr : q r = true
          · rw [List.filter_cons, if_pos hqr, hih, List.filter_cons,
              if_pos hqr, insertRow_cons, if_neg h1, if_neg h2]
          · rw [List.filter_cons, if_neg hqr, hih, List.filter_cons,
              if_neg hqr]
        · rw [if_neg hqd] at hih ⊢
          by_cases hqr : q r = true
          · rw [List.filter_cons, if_pos hqr, hih, List.filter_cons,
              if_pos hqr]
          · rw [List.filter_cons, if_neg hqr, hih, List.filter_cons,
              if_neg hqr]

theorem Resolve_mem {chain : List Dentry} {S : Nat} {r : Dentry}
    (h : Resolve chain S = some r) :
    resolveRow chain S = some r ∧ hasDeleteMark r = false := by
  match hres : resolveRow chain S with
  | none => simp [Resolve, hres] at h
  | some v =>
    by_cases hdel : hasDeleteMark v
    · simp [Resolve, hres, hdel] at h
    · simp [Resolve, hres, hdel] at h
      rw [h] at hdel
      exact ⟨by rw [h], Bool.eq_false_iff.mpr hdel⟩

theorem mem_eraseChain {s : Store} {d r : Dentry} :
    r ∈ eraseChain s d ↔ r ∈ s ∧ ¬ sameName r d := by
  simp [eraseChain, List.mem_filter]

theorem chainOf_eraseChain_self (s : Store) (d : Dentry) :
    chainOf (eraseChain s d) d = [] := by
  apply List.filter_eq_nil_iff.mpr
  intro r hr
  have := (mem_eraseChain.mp hr).2
  simp only [sameName] at this
  simpa [decide_eq_true_iff] using this

theorem WF_eraseChain {s : Store} (hwf : WF s) (d : Dentry) :
    WF (eraseChain s d) :=
  hwf.sublist (List.filter_sublist s)

theorem mem_compactChain {s : Store} {v r : Dentry} :
    r ∈ compactChain s v ↔ r ∈ s ∧ (¬ sameName r v ∨ r = v) := by
  simp [compactChain, List.mem_filter]

theorem length_compactChain_le (s : Store) (v : Dentry) :
    (compactChain s v).length ≤ s.length :=
  List.length_filter_le _ s

theorem mem_namesOf {s : Store} {f p : Nat} {c n : String} :
    n ∈ namesOf s f p c ↔
      ∃ x ∈ s, x.fsId = f ∧ x.parentInodeId = p ∧
        c.data < x.name.data ∧ x.name = n := by
  unfold namesOf
  rw [List.mem_dedup, List.mem_map]
  constructor
  · rintro ⟨x, hx, rfl⟩
    have := List.mem_filter.mp hx
    refine ⟨x, this.1, ?_⟩
    have h2 := this.2
    simp only [decide_eq_true_iff] at h2
    exact ⟨h2.1, h2.2.1, h2.2.2, rfl⟩
  · rintro ⟨x, hx, h1, h2, h3, rfl⟩
    exact ⟨x, List.mem_filter.mpr ⟨hx, by simp [h1, h2, h3]⟩, rfl⟩

theorem namesOf_pairwise {s : Store} (hwf : WF s) (f p : Nat) (c : String) :
    (namesOf s f p c).Pairwise (fun a b : String => a.data < b.data) := by
  unfold namesOf
  have hfil : (s.filter (fun r =>
      decide (r.fsId = f ∧ r.parentInodeId = p ∧
        c.data < r.name.data))).Pairwise keyLt :=
    hwf.sublist (List.filter_sublist s)
  have hmap : ((s.filter (fun r =>
      decide (r.fsId = f ∧ r.parentInodeId = p ∧
        c.data < r.name.data))).map (fun r => r.name)).Pairwise
      (fun a b : String => a.data < b.data ∨ a = b) := by
    rw [List.pairwise_map]
    refine List.Pairwise.imp_of_mem ?_ hfil
    intro a b ha hb hlt
    have hfa := (List.mem_filter.mp ha).2
    have hfb := (List.mem_filter.mp hb).2
    simp only [decide_eq_true_iff] at hfa hfb
    rcases hlt with h | ⟨e1, h | ⟨e2, h | ⟨e3, -⟩⟩⟩
    · exact absurd h (by rw [hfa.1, hfb.1]; exact lt_irrefl f)
    · exact absurd h (by rw [hfa.2.1, hfb.2.1]; exact lt_irrefl p)
    · exact Or.inl h
    · exact Or.inr (strData_inj e3)
  have hsub := hmap.sublist (List.dedup_sublist _)
  have hnodup : (((s.filter (fun r =>
      decide (r.fsId = f ∧ r.parentInodeId = p ∧
        c.data < r.name.data))).map (fun r => r.name)).dedup).Pairwise
      (fun a b : String => a ≠ b) :=
    List.nodup_dedup _
  refine List.Pairwise.imp₂ ?_ hsub hnodup
  rintro a b (h | h) hne
  · exact h
  · exact absurd h hne

theorem mem_listEntries {s : Store} {d r : Dentry} (hwf : WF s) :
    r ∈ listEntries s d false ↔
      (r.fsId = d.fsId ∧ r.parentInodeId = d.parentInodeId ∧
       d.name.data < r.name.data ∧ r ∈ s ∧ r.txId ≤ d.txId ∧
       hasDeleteMark r = false ∧
       ∀ y ∈ chainAt s d.fsId d.parentInodeId r.name,
         y.txId ≤ d.txId → y.txId ≤ r.txId) := by
  unfold listEntries
  rw [List.mem_filterMap]
  constructor
  · rintro ⟨n, hn, hfn⟩
    match hres : Resolve (chainAt s d.fsId d.parentInodeId n) d.txId with
    | none => rw [hres] at hfn; simp at hfn
    | some v =>
      rw [hres] at hfn
      simp at hfn
      subst hfn
      obtain ⟨hmem, hle, hdel, hmax⟩ := (Resolve_eq_some_iff
        (chainAt_pairwise hwf d.fsId d.parentInodeId n)).mp hres
      obtain ⟨hs, e1, e2, e3⟩ := mem_chainAt.mp hmem
      obtain ⟨x, -, -, -, hcx, hxn⟩ := mem_namesOf.mp hn
      subst e3
      refine ⟨e1, e2, ?_, hs, hle, hdel, hmax⟩
      rw [hxn] at hcx
      exact hcx
  · rintro ⟨h1, h2, h3, h4, h5, h6, h7⟩
    refine ⟨r.name, mem_namesOf.mpr ⟨r, h4, h1, h2, h3, rfl⟩, ?_⟩
    rw [(Resolve_eq_some_iff
      (chainAt_pairwise hwf d.fsId d.parentInodeId r.name)).mpr
      ⟨mem_chainAt.mpr ⟨h4, h1, h2, rfl⟩, h5, h6, h7⟩]
    simp

theorem listEntries_pairwise {s : Store} (hwf : WF s) (d : Dentry) :
    (listEntries s d false).Pairwise
      (fun a b => a.name.data < b.name.data) := by
  unfold listEntries
  rw [List.pairwise_filterMap]
  refine List.Pairwise.imp_of_mem ?_
    (namesOf_pairwise hwf d.fsId d.parentInodeId d.name)
  intro n1 n2 hn1 hn2 hlt x hx y hy
  rw [Option.mem_def] at hx hy
  have hxname : x.name = n1 := by
    match hres : Resolve (chainAt s d.fsId d.parentInodeId n1) d.txId with
    | none => rw [hres] at hx; simp at hx
    | some v =>
      rw [hres] at hx
      simp at hx
      subst hx
      exact (mem_chainAt.mp (resolveRow_mem (Resolve_mem hres).1).1).2.2.2
  have hyname : y.name = n2 := by
    match hres : Resolve (chainAt s d.fsId d.parentInodeId n2) d.txId with
    | none => rw [hres] at hy; simp at hy
    | some v =>
      rw [hres] at hy
      simp at hy
      subst hy
      exact (mem_chainAt.mp (resolveRow_mem (Resolve_mem hres).1).1).2.2.2
  rw [hxname, hyname]
  exact hlt

theorem length_filter_add_length_filter_not {α : Type _} (l : List α)
    (p : α → Bool) :
    (l.filter p).length + (l.filter (fun a => !(p a))).length = l.length := by
  induction l with
  | nil => rfl
  | cons a t ih =>
    by_cases h : p a = true
    · rw [List.filter_cons, if_pos h, List.filter_cons,
        if_neg (by simp [h]), List.length_cons, List.length_cons]
      omega
    · rw [List.filter_cons, if_neg h, List.filter_cons,
        if_pos (by simp [Bool.eq_false_iff.mp (by simpa using h)]),
        List.length_cons, List.length_cons]
      omega

theorem filter_sameKey_eq_single {s : Store} {d r0 : Dentry} (hwf : WF s)
    (hmem : r0 ∈ s) (hk : sameKey r0 d) :
    s.filter (fun r => decide (sameKey r d)) = [r0] := by
  induction s with
  | nil => cases hmem
  | cons x xs ih =>
    have hhead := (List.pairwise_cons.mp hwf).1
    have htail := (List.pairwise_cons.mp hwf).2
    rcases List.mem_cons.mp hmem with rfl | hmem'
    · rw [List.filter_cons, if_pos (by simpa using hk)]
      have : xs.filter (fun r => decide (sameKey r d)) = [] := by
        apply List.filter_eq_nil_iff.mpr
        intro y hy
        simp only [decide_eq_true_iff]
        intro hyk
        exact not_keyLt_of_sameKey
          ⟨sameName_trans hk.1 (sameName_symm hyk.1),
           hk.2.trans hyk.2.symm⟩ (hhead y hy)
      rw [this]
    · have hxk : ¬ sameKey x d := by
        intro hxk
        exact not_keyLt_of_sameKey
          ⟨sameName_trans hxk.1 (sameName_symm hk.1),
           hxk.2.trans hk.2.symm⟩ (hhead r0 hmem')
      rw [List.filter_cons, if_neg (by simpa using hxk)]
      exact ih htail hmem'

/-- C3 (delete monotonicity): whenever the version chain of `d`'s key holds
a row with `txId` strictly greater than `d.txId` (a newer version has
superseded the delete request), `Delete` returns `NOT_FOUND` and performs
no mutation at all — the state, and in particular every newer version, is
returned unchanged. -/
theorem claim_C3_delete_monotonicity (s : Store) (d : Dentry) (hwf : WF s)
    (hnewer : ∃ r ∈ chainOf s d, d.txId < r.txId) :
    DentryStorage.Delete s d = (MetaStatusCode.NOT_FOUND, s) := by
  obtain ⟨r, hr, hlt⟩ := hnewer
  match hl : (chainOf s d).getLast? with
  | none =>
    rw [List.getLast?_eq_none_iff] at hl
    rw [hl] at hr
    cases hr
  | some newest =>
    have hcond : d.txId < newest.txId := by
      rcases pairwise_rel_getLast (chainOf_pairwise hwf d) hl r hr with
        rfl | h
      · exact hlt
      · omega
    simp [DentryStorage.Delete, hl, hcond]

theorem claim_C3_delete_monotonicity_witness :
    DentryStorage.Delete [⟨1, 1, "A", 5, 2, 0, .TYPE_FILE⟩]
        ⟨1, 1, "A", 1, 2, 0, .TYPE_FILE⟩ =
      (MetaStatusCode.NOT_FOUND, [⟨1, 1, "A", 5, 2, 0, .TYPE_FILE⟩]) :=
  claim_C3_delete_monotonicity _ _ (by decide)
    ⟨⟨1, 1, "A", 5, 2, 0, .TYPE_FILE⟩, by decide, by decide⟩

/-- C6 (rollback is surgical): `RollbackTx {d}` returns `OK`; a row remains
stored exactly when it was stored before and does not occupy `d`'s exact
key `(fsId, parentInodeId, name, txId)`; when no row occupied that exact
key the state is returned entirely unchanged, and when one did the reported
size drops by exactly one — every sibling version of the chain (in
particular a pre-existing ground version) survives untouched. -/
theorem claim_C6_rollback_surgical (s : Store) (d : Dentry) (hwf : WF s) :
    (DentryStorage.RollbackTx s [d]).1 = MetaStatusCode.OK ∧
    (∀ r : Dentry,
      r ∈ (DentryStorage.RollbackTx s [d]).2 ↔ (r ∈ s ∧ ¬ sameKey r d)) ∧
    (findExact s d = none → (DentryStorage.RollbackTx s [d]).2 = s) ∧
    (∀ r0, findExact s d = some r0 →
      DentryStorage.Size (DentryStorage.RollbackTx s [d]).2 + 1 =
        DentryStorage.Size s) := by
  refine ⟨rfl, ?_, ?_, ?_⟩
  · intro r
    simp [DentryStorage.RollbackTx, List.mem_filter]
  · intro hnone
    have h := findExact_eq_none_iff.mp hnone
    simp only [DentryStorage.RollbackTx, List.foldl]
    apply List.filter_eq_self.mpr
    intro r hr
    simpa using h r hr
  · intro r0 h0
    obtain ⟨hmem, hk⟩ := findExact_some h0
    simp only [DentryStorage.RollbackTx, List.foldl, DentryStorage.Size]
    have hsingle := filter_sameKey_eq_single hwf hmem hk
    have hsum := length_filter_add_length_filter_not s
      (fun r => decide (sameKey r d))
    have hone : (s.filter (fun r => decide (sameKey r d))).length = 1 := by
      rw [hsingle]
      rfl
    have hpred : (fun r => decide (¬ sameKey r d)) =
        (fun r => !(decide (sameKey r d))) := by
      funext r
      simp
    rw [hpred]
    omega

theorem claim_C6_rollback_surgical_witness :
    (DentryStorage.RollbackTx
        [⟨1, 0, "A", 0, 1, 0, .TYPE_FILE⟩, ⟨1, 0, "A", 1, 2, 0, .TYPE_FILE⟩]
        [⟨1, 0, "A", 1, 2, 0, .TYPE_FILE⟩]).1 = MetaStatusCode.OK ∧
    ((⟨1, 0, "A", 0, 1, 0, .TYPE_FILE⟩ : Dentry) ∈
      (DentryStorage.RollbackTx
        [⟨1, 0, "A", 0, 1, 0, .TYPE_FILE⟩, ⟨1, 0, "A", 1, 2, 0, .TYPE_FILE⟩]
        [⟨1, 0, "A", 1, 2, 0, .TYPE_FILE⟩]).2) ∧
    DentryStorage.Size (DentryStorage.RollbackTx
        [⟨1, 0, "A", 0, 1, 0, .TYPE_FILE⟩, ⟨1, 0, "A", 1, 2, 0, .TYPE_FILE⟩]
        [⟨1, 0, "A", 1, 2, 0, .TYPE_FILE⟩]).2 + 1 = 2 := by
  have h := claim_C6_rollback_surgical
    [⟨1, 0, "A", 0, 1, 0, .TYPE_FILE⟩, ⟨1, 0, "A", 1, 2, 0, .TYPE_FILE⟩]
    ⟨1, 0, "A", 1, 2, 0, .TYPE_FILE⟩ (by decide)
  refine ⟨h.1, ?_, ?_⟩
  · exact (h.2.1 _).mpr ⟨by decide, by decide⟩
  · exact h.2.2.2 ⟨1, 0, "A", 1, 2, 0, .TYPE_FILE⟩ (by decide)

/-- C7 (prepare replay idempotence): re-preparing a dentry whose identical
row is already stored at its exact key returns `OK` and leaves the state —
both the stored rows and the reported size — literally unchanged, so
`PrepareTx` is safe under at-least-once log replay. -/
theorem claim_C7_prepare_replay (s : Store) (d : Dentry) (hwf : WF s)
    (hmem : d ∈ s) :
    DentryStorage.PrepareTx s [d] = (MetaStatusCode.OK, s) := by
  simp [DentryStorage.PrepareTx, insertRow_eq_self hwf hmem]

theorem claim_C7_prepare_replay_witness :
    DentryStorage.PrepareTx
        [⟨1, 0, "A", 0, 1, 0, .TYPE_FILE⟩, ⟨1, 0, "A", 1, 2, 0, .TYPE_FILE⟩]
        [⟨1, 0, "A", 1, 2, 0, .TYPE_FILE⟩] =
      (MetaStatusCode.OK,
       [⟨1, 0, "A", 0, 1, 0, .TYPE_FILE⟩,
        ⟨1, 0, "A", 1, 2, 0, .TYPE_FILE⟩]) :=
  claim_C7_prepare_replay _ _ (by decide) (by decide)

/-- C1 (visibility): for a well-formed store, `Get` at snapshot `d.txId`
returns `NOT_FOUND` when every chain row is newer than the snapshot; and
when `r` is the chain row with the largest `txId ≤ d.txId`, `Get` returns
`NOT_FOUND` if `r` is a tombstone and `(OK, r)` otherwise.  `List` (cursor
`d.name`, snapshot `d.txId`, no limit, no directory filter) emits a row `r`
exactly when `r` is stored under `(d.fsId, d.parentInodeId)` with a name
beyond the cursor and is the non-tombstone row with the largest
`txId ≤ d.txId` of its name's chain — names whose chain is empty at the
snapshot or resolves to a tombstone are skipped. -/
theorem claim_C1_visibility (s : Store) (d : Dentry) (hwf : WF s) :
    ((∀ r ∈ chainOf s d, d.txId < r.txId) →
      DentryStorage.Get s d = (MetaStatusCode.NOT_FOUND, none)) ∧
    (∀ r ∈ chainOf s d, r.txId ≤ d.txId →
      (∀ y ∈ chainOf s d, y.txId ≤ d.txId → y.txId ≤ r.txId) →
      ((hasDeleteMark r = true →
          DentryStorage.Get s d = (MetaStatusCode.NOT_FOUND, none)) ∧
       (hasDeleteMark r = false →
          DentryStorage.Get s d = (MetaStatusCode.OK, some r)))) ∧
    (∀ r : Dentry,
      r ∈ (DentryStorage.ListOp s d 0 false).2 ↔
        (r.fsId = d.fsId ∧ r.parentInodeId = d.parentInodeId ∧
         d.name.data < r.name.data ∧ r ∈ s ∧ r.txId ≤ d.txId ∧
         hasDeleteMark r = false ∧
         ∀ y ∈ chainAt s d.fsId d.parentInodeId r.name,
           y.txId ≤ d.txId → y.txId ≤ r.txId)) := by
  refine ⟨?_, ?_, ?_⟩
  · intro h
    simp [DentryStorage.Get, Resolve_eq_none_of_all_newer h]
  · intro r hr hle hmax
    have hres : resolveRow (chainOf s d) d.txId = some r :=
      resolveRow_eq_some_of_max (chainOf_pairwise hwf d) hr hle hmax
    constructor
    · intro hdel
      simp [DentryStorage.Get, Resolve_eq_none_of_tombstone hres hdel]
    · intro hdel
      have : Resolve (chainOf s d) d.txId = some r := by
        simp [Resolve, hres, hdel]
      simp [DentryStorage.Get, this]
  · intro r
    have : (DentryStorage.ListOp s d 0 false).2 = listEntries s d false := rfl
    rw [this]
    exact mem_listEntries hwf

theorem claim_C1_visibility_witness :
    DentryStorage.Get
        [⟨1, 0, "A", 0, 1, 0, .TYPE_FILE⟩, ⟨1, 0, "A", 3, 2, 0, .TYPE_FILE⟩]
        ⟨1, 0, "A", 2, 0, 0, .TYPE_FILE⟩ =
      (MetaStatusCode.OK, some ⟨1, 0, "A", 0, 1, 0, .TYPE_FILE⟩) ∧
    ((⟨1, 0, "A", 0, 1, 0, .TYPE_FILE⟩ : Dentry) ∈
      (DentryStorage.ListOp
        [⟨1, 0, "A", 0, 1, 0, .TYPE_FILE⟩, ⟨1, 0, "A", 3, 2, 0, .TYPE_FILE⟩]
        ⟨1, 0, "", 2, 0, 0, .TYPE_FILE⟩ 0 false).2) := by
  constructor
  · exact ((claim_C1_visibility
      [⟨1, 0, "A", 0, 1, 0, .TYPE_FILE⟩, ⟨1, 0, "A", 3, 2, 0, .TYPE_FILE⟩]
      ⟨1, 0, "A", 2, 0, 0, .TYPE_FILE⟩ (by decide)).2.1
      ⟨1, 0, "A", 0, 1, 0, .TYPE_FILE⟩ (by decide) (by decide)
      (by decide)).2 rfl
  · exact ((claim_C1_visibility
      [⟨1, 0, "A", 0, 1, 0, .TYPE_FILE⟩, ⟨1, 0, "A", 3, 2, 0, .TYPE_FILE⟩]
      ⟨1, 0, "", 2, 0, 0, .TYPE_FILE⟩ (by decide)).2.2
      ⟨1, 0, "A", 0, 1, 0, .TYPE_FILE⟩).mpr (by decide)

/-- C2, counterexample to the claim as stated: the store holds the row
`(1, 1, "A", txId 0, inodeId 2, TYPE_FILE)` and the insert presents
`(1, 1, "A", txId 0, inodeId 2, TYPE_DIRECTORY)`.  The row visible at
snapshot 0 has the same `inodeId` and is not a tombstone, so the claim
demands `IDEMPOTENCE_OK`; but a physical row occupies the exact key with
different content (the type differs), which is the conflicting-create case
the spec's step 2 checks first: `Insert` returns `DENTRY_EXIST`. -/
theorem claim_C2_counterexample :
    Resolve (chainOf [⟨1, 1, "A", 0, 2, 0, .TYPE_FILE⟩]
        ⟨1, 1, "A", 0, 2, 0, .TYPE_DIRECTORY⟩) 0 =
      some ⟨1, 1, "A", 0, 2, 0, .TYPE_FILE⟩ ∧
    (⟨1, 1, "A", 0, 2, 0, .TYPE_FILE⟩ : Dentry).inodeId =
      (⟨1, 1, "A", 0, 2, 0, .TYPE_DIRECTORY⟩ : Dentry).inodeId ∧
    hasDeleteMark ⟨1, 1, "A", 0, 2, 0, .TYPE_DIRECTORY⟩ = false ∧
    DentryStorage.Insert [⟨1, 1, "A", 0, 2, 0, .TYPE_FILE⟩]
        ⟨1, 1, "A", 0, 2, 0, .TYPE_DIRECTORY⟩ =
      (MetaStatusCode.DENTRY_EXIST, [⟨1, 1, "A", 0, 2, 0, .TYPE_FILE⟩]) := by
  decide

/-- C2 as amended (insert idempotence): when the row visible at snapshot
`d.txId` already represents `d`'s target (same `inodeId`, both
non-tombstone) *and* the physical row at `d`'s exact key, if any, is
identical to `d` (so the conflicting-create check of spec §4.3 step 2 does
not fire first), `Insert` returns `IDEMPOTENCE_OK`, adds no new row (every
row of the result was already stored), and never grows `Size()`. -/
theorem claim_C2_insert_idempotent (s : Store) (d : Dentry) (hwf : WF s)
    (v : Dentry) (hres : Resolve (chainOf s d) d.txId = some v)
    (hinode : v.inodeId = d.inodeId) (htomb : hasDeleteMark d = false)
    (hexact : ∀ r0, findExact s d = some r0 → r0 = d) :
    (DentryStorage.Insert s d).1 = MetaStatusCode.IDEMPOTENCE_OK ∧
    (∀ r ∈ (DentryStorage.Insert s d).2, r ∈ s) ∧
    DentryStorage.Size (DentryStorage.Insert s d).2 ≤
      DentryStorage.Size s := by
  have heval : DentryStorage.Insert s d =
      (MetaStatusCode.IDEMPOTENCE_OK, compactChain s v) := by
    rcases hfe : findExact s d with _ | r
    · simp [DentryStorage.Insert, hfe, hres, hinode, htomb]
    · have hrd := hexact r hfe
      subst hrd
      simp [DentryStorage.Insert, hfe, hres, hinode, htomb]
  rw [heval]
  exact ⟨rfl, fun r hr => (mem_compactChain.mp hr).1,
    length_compactChain_le s v⟩

theorem claim_C2_insert_idempotent_witness :
    (DentryStorage.Insert [⟨1, 1, "A", 0, 2, 0, .TYPE_FILE⟩]
        ⟨1, 1, "A", 1, 2, 0, .TYPE_FILE⟩).1 =
      MetaStatusCode.IDEMPOTENCE_OK ∧
    DentryStorage.Size (DentryStorage.Insert
        [⟨1, 1, "A", 0, 2, 0, .TYPE_FILE⟩]
        ⟨1, 1, "A", 1, 2, 0, .TYPE_FILE⟩).2 ≤ 1 := by
  have hnone : findExact [⟨1, 1, "A", 0, 2, 0, .TYPE_FILE⟩]
      ⟨1, 1, "A", 1, 2, 0, .TYPE_FILE⟩ = none := by decide
  have h := claim_C2_insert_idempotent
    [⟨1, 1, "A", 0, 2, 0, .TYPE_FILE⟩] ⟨1, 1, "A", 1, 2, 0, .TYPE_FILE⟩
    (by decide) ⟨1, 1, "A", 0, 2, 0, .TYPE_FILE⟩ (by decide) (by decide)
    (by decide) (fun r0 h0 => by rw [hnone] at h0; cases h0)
  exact ⟨h.1, h.2.2⟩

/-- C4, counterexample to the claim as stated: the chain of `"A"` holds a
tombstone at `txId 0` and a live row at `txId 5`, and `Delete` is requested
at `txId 2`.  The row resolved at snapshot 2 is the tombstone, so the claim
demands that the entire chain be physically purged; but the chain also
holds a version newer than the request, and the staleness rejection
(spec §8, delete monotonicity — claim C3) takes priority: `Delete` returns
`NOT_FOUND` with the state unchanged, the chain keeping both rows. -/
theorem claim_C4_counterexample :
    resolveRow (chainOf
        [⟨1, 1, "A", 0, 7, 2, .TYPE_FILE⟩, ⟨1, 1, "A", 5, 8, 0, .TYPE_FILE⟩]
        ⟨1, 1, "A", 2, 0, 0, .TYPE_FILE⟩) 2 =
      some ⟨1, 1, "A", 0, 7, 2, .TYPE_FILE⟩ ∧
    hasDeleteMark ⟨1, 1, "A", 0, 7, 2, .TYPE_FILE⟩ = true ∧
    DentryStorage.Delete
        [⟨1, 1, "A", 0, 7, 2, .TYPE_FILE⟩, ⟨1, 1, "A", 5, 8, 0, .TYPE_FILE⟩]
        ⟨1, 1, "A", 2, 0, 0, .TYPE_FILE⟩ =
      (MetaStatusCode.NOT_FOUND,
       [⟨1, 1, "A", 0, 7, 2, .TYPE_FILE⟩,
        ⟨1, 1, "A", 5, 8, 0, .TYPE_FILE⟩]) ∧
    chainOf (DentryStorage.Delete
        [⟨1, 1, "A", 0, 7, 2, .TYPE_FILE⟩, ⟨1, 1, "A", 5, 8, 0, .TYPE_FILE⟩]
        ⟨1, 1, "A", 2, 0, 0, .TYPE_FILE⟩).2
      ⟨1, 1, "A", 2, 0, 0, .TYPE_FILE⟩ ≠ [] := by
  decide

/-- C4 as amended (delete on a logically absent key): when the chain of
`d`'s key is empty, or its newest row is at most as new as the request
(`txId ≤ d.txId`, so the staleness rejection of C3 does not fire first) and
is a tombstone, `Delete` returns `NOT_FOUND` and physically removes every
row of that key's version chain, leaving rows of other keys unchanged. -/
theorem claim_C4_delete_absent (s : Store) (d : Dentry) (hwf : WF s)
    (habs : chainOf s d = [] ∨
      ∃ newest, (chainOf s d).getLast? = some newest ∧
        newest.txId ≤ d.txId ∧ hasDeleteMark newest = true) :
    (DentryStorage.Delete s d).1 = MetaStatusCode.NOT_FOUND ∧
    chainOf (DentryStorage.Delete s d).2 d = [] ∧
    (∀ r ∈ s, ¬ sameName r d → r ∈ (DentryStorage.Delete s d).2) ∧
    (∀ r ∈ (DentryStorage.Delete s d).2, r ∈ s) := by
  rcases habs with hemp | ⟨newest, hl, hle, htomb⟩
  · have hl : (chainOf s d).getLast? = none :=
      List.getLast?_eq_none_iff.mpr hemp
    have heval : DentryStorage.Delete s d = (MetaStatusCode.NOT_FOUND, s) := by
      simp [DentryStorage.Delete, hl]
    rw [heval]
    exact ⟨rfl, hemp, fun r hr _ => hr, fun r hr => hr⟩
  · have hnotlt : ¬ d.txId < newest.txId := by omega
    have heval : DentryStorage.Delete s d =
        (MetaStatusCode.NOT_FOUND, eraseChain s d) := by
      simp [DentryStorage.Delete, hl, hnotlt, htomb]
    rw [heval]
    refine ⟨rfl, chainOf_eraseChain_self s d, ?_, ?_⟩
    · intro r hr hn
      exact mem_eraseChain.mpr ⟨hr, hn⟩
    · intro r hr
      exact (mem_eraseChain.mp hr).1

theorem claim_C4_delete_absent_witness :
    (DentryStorage.Delete [⟨1, 1, "A", 1, 2, 2, .TYPE_FILE⟩]
        ⟨1, 1, "A", 2, 2, 0, .TYPE_FILE⟩).1 = MetaStatusCode.NOT_FOUND ∧
    chainOf (DentryStorage.Delete [⟨1, 1, "A", 1, 2, 2, .TYPE_FILE⟩]
        ⟨1, 1, "A", 2, 2, 0, .TYPE_FILE⟩).2
      ⟨1, 1, "A", 2, 2, 0, .TYPE_FILE⟩ = [] := by
  have h := claim_C4_delete_absent [⟨1, 1, "A", 1, 2, 2, .TYPE_FILE⟩]
    ⟨1, 1, "A", 2, 2, 0, .TYPE_FILE⟩ (by decide)
    (Or.inr ⟨⟨1, 1, "A", 1, 2, 2, .TYPE_FILE⟩, by decide, by decide,
      by decide⟩)
  exact ⟨h.1, h.2.1⟩

/-- C5, counterexample to the claim as stated: the prepared chain of `"A"`
is `(txId 0, inodeId 1, live)` and `(txId 1, inodeId 1, DELETE_MARK)`, and
`CommitTx` is called with the key reference
`d = (1, 0, "A", txId 1, inodeId 0)` carrying no `DELETE_MARK` (exactly the
scenario of the reference test `DentryStorageTest.HandleTx`, "commit dentry
with DELETE_MARK_FLAG flag").  The claim, reading `d` itself, demands the
chain end up as the single row `d`; but what is committed is the *stored*
prepared row at `d`'s key, which is a tombstone, so the chain ends up
empty. -/
theorem claim_C5_counterexample :
    hasDeleteMark ⟨1, 0, "A", 1, 0, 0, .TYPE_FILE⟩ = false ∧
    DentryStorage.CommitTx
        [⟨1, 0, "A", 0, 1, 0, .TYPE_FILE⟩, ⟨1, 0, "A", 1, 1, 2, .TYPE_FILE⟩]
        [⟨1, 0, "A", 1, 0, 0, .TYPE_FILE⟩] = (MetaStatusCode.OK, []) ∧
    chainOf (DentryStorage.CommitTx
        [⟨1, 0, "A", 0, 1, 0, .TYPE_FILE⟩, ⟨1, 0, "A", 1, 1, 2, .TYPE_FILE⟩]
        [⟨1, 0, "A", 1, 0, 0, .TYPE_FILE⟩]).2
      ⟨1, 0, "A", 1, 0, 0, .TYPE_FILE⟩ = [] := by
  decide

/-- C5 as amended (commit collapses the chain): `CommitTx {d}` returns `OK`
and collapses `d`'s chain to its committed version, where the committed
version is the row stored at `d`'s exact key when one exists (the prepared
row) and `d` itself otherwise: the chain ends up holding exactly that one
row when it carries no `DELETE_MARK`, and no row at all when it does.
Rows of other keys survive.  When the stored row at `d`'s key is `d` itself
— the intended calling convention — this is the claim as originally
stated. -/
theorem claim_C5_commit_collapses (s : Store) (d : Dentry) (hwf : WF s) :
    (DentryStorage.CommitTx s [d]).1 = MetaStatusCode.OK ∧
    chainOf (DentryStorage.CommitTx s [d]).2 d =
      (if hasDeleteMark ((findExact s d).getD d) then []
       else [(findExact s d).getD d]) ∧
    (∀ r ∈ s, ¬ sameName r d → r ∈ (DentryStorage.CommitTx s [d]).2) := by
  have hstate : (DentryStorage.CommitTx s [d]).2 =
      DentryStorage.commitOne s d := rfl
  set r := (findExact s d).getD d with hrdef
  have hrname : sameName r d := by
    rcases hfe : findExact s d with _ | r0
    · rw [hrdef, hfe]
      exact ⟨rfl, rfl, rfl⟩
    · rw [hrdef, hfe]
      exact (findExact_some hfe).2.1
  by_cases htomb : hasDeleteMark r
  · have heval : DentryStorage.commitOne s d = eraseChain s d := by
      unfold DentryStorage.commitOne
      rw [← hrdef, if_pos htomb]
    refine ⟨rfl, ?_, ?_⟩
    · rw [hstate, heval, chainOf_eraseChain_self, if_pos htomb]
    · intro x hx hn
      rw [hstate, heval]
      exact mem_eraseChain.mpr ⟨hx, hn⟩
  · have heval : DentryStorage.commitOne s d =
        insertRow r (eraseChain s d) := by
      unfold DentryStorage.commitOne
      rw [← hrdef, if_neg htomb]
    have hq : ∀ x, sameKey x r →
        (fun x => decide (x.fsId = d.fsId ∧ x.parentInodeId = d.parentInodeId ∧
          x.name = d.name)) x =
        (fun x => decide (x.fsId = d.fsId ∧ x.parentInodeId = d.parentInodeId ∧
          x.name = d.name)) r := by
      intro x hxk
      obtain ⟨⟨e1, e2, e3⟩, -⟩ := hxk
      exact decide_eq_decide.mpr (by rw [e1, e2, e3])
    have hchain : chainOf (insertRow r (eraseChain s d)) d =
        insertRow r (chainOf (eraseChain s d) d) := by
      have := filter_insertRow (d := r) (s := eraseChain s d)
        (q := fun x => decide (x.fsId = d.fsId ∧
          x.parentInodeId = d.parentInodeId ∧ x.name = d.name))
        (WF_eraseChain hwf d) hq
      have hqr : decide (r.fsId = d.fsId ∧ r.parentInodeId = d.parentInodeId ∧
          r.name = d.name) = true := by
        obtain ⟨e1, e2, e3⟩ := hrname
        simp [e1, e2, e3]
      simp only [hqr, eq_self_iff_true, if_true] at this
      simpa [chainOf, chainAt] using this
    refine ⟨rfl, ?_, ?_⟩
    · rw [hstate, heval, if_neg htomb, hchain, chainOf_eraseChain_self,
        insertRow_nil]
    · intro x hx hn
      rw [hstate, heval]
      apply mem_insertRow_of_mem (mem_eraseChain.mpr ⟨hx, hn⟩)
      intro hk
      exact hn (sameName_trans (sameName_symm hk.1) hrname)

theorem claim_C5_commit_collapses_witness :
    (DentryStorage.CommitTx
        [⟨1, 0, "A", 0, 1, 0, .TYPE_FILE⟩, ⟨1, 0, "A", 1, 2, 0, .TYPE_FILE⟩]
        [⟨1, 0, "A", 1, 2, 0, .TYPE_FILE⟩]).1 = MetaStatusCode.OK ∧
    chainOf (DentryStorage.CommitTx
        [⟨1, 0, "A", 0, 1, 0, .TYPE_FILE⟩, ⟨1, 0, "A", 1, 2, 0, .TYPE_FILE⟩]
        [⟨1, 0, "A", 1, 2, 0, .TYPE_FILE⟩]).2
      ⟨1, 0, "A", 1, 2, 0, .TYPE_FILE⟩ =
      [⟨1, 0, "A", 1, 2, 0, .TYPE_FILE⟩] := by
  have h := claim_C5_commit_collapses
    [⟨1, 0, "A", 0, 1, 0, .TYPE_FILE⟩, ⟨1, 0, "A", 1, 2, 0, .TYPE_FILE⟩]
    ⟨1, 0, "A", 1, 2, 0, .TYPE_FILE⟩ (by decide)
  refine ⟨h.1, ?_⟩
  rw [h.2.1]
  decide

/-- C8 (size counts physical rows): `Size` reports the number of
physically stored rows, tombstones and all chain versions included.
Preparing a tombstone version at a fresh exact key grows `Size()` by
exactly one row even though the entry is logically absent afterwards:
`Get` at the tombstone's snapshot returns `NOT_FOUND`. -/
theorem claim_C8_size_counts_rows (s : Store) (d : Dentry) (hwf : WF s)
    (htomb : hasDeleteMark d = true) (hfresh : findExact s d = none) :
    DentryStorage.Size (DentryStorage.PrepareTx s [d]).2 =
      DentryStorage.Size s + 1 ∧
    DentryStorage.Get (DentryStorage.PrepareTx s [d]).2 d =
      (MetaStatusCode.NOT_FOUND, none) := by
  have hstate : (DentryStorage.PrepareTx s [d]).2 = insertRow d s := rfl
  constructor
  · rw [hstate]
    exact length_insertRow_of_no_exact (findExact_eq_none_iff.mp hfresh)
  · rw [hstate]
    have hres : resolveRow (chainOf (insertRow d s) d) d.txId = some d := by
      apply resolveRow_eq_some_of_max
        (chainOf_pairwise (WF_insertRow hwf) d)
      · exact mem_chainOf.mpr ⟨mem_insertRow_self d s, rfl, rfl, rfl⟩
      · exact le_rfl
      · intro y hy hyle
        exact hyle
    simp [DentryStorage.Get, Resolve_eq_none_of_tombstone hres htomb]

theorem claim_C8_size_counts_rows_witness :
    DentryStorage.Size (DentryStorage.PrepareTx
        [⟨1, 1, "A", 0, 5, 0, .TYPE_FILE⟩]
        [⟨1, 1, "A", 3, 5, 2, .TYPE_FILE⟩]).2 = 2 ∧
    DentryStorage.Get (DentryStorage.PrepareTx
        [⟨1, 1, "A", 0, 5, 0, .TYPE_FILE⟩]
        [⟨1, 1, "A", 3, 5, 2, .TYPE_FILE⟩]).2
      ⟨1, 1, "A", 3, 5, 2, .TYPE_FILE⟩ = (MetaStatusCode.NOT_FOUND, none) :=
  claim_C8_size_counts_rows [⟨1, 1, "A", 0, 5, 0, .TYPE_FILE⟩]
    ⟨1, 1, "A", 3, 5, 2, .TYPE_FILE⟩ (by decide) (by decide) (by decide)

/-- C10 (zero-segment-size guard): when `segmentsize() = 0`, both
`CleanCore::CleanSnapShotFile` and `CleanCore::CleanFile` return
`StatusCode::KInternalError` immediately: the quotient
`length() / segmentsize()` is never formed, no chunk deletion, segment
deletion or file-record deletion is performed (the effect trace is empty),
and the `TaskProgress` object is returned untouched. -/
theorem claim_C10_zero_segmentsize_guard (env : CleanEnv) (fi : FileInfo)
    (progress : TaskProgress) (h : fi.segmentsize = 0) :
    CleanCore.CleanSnapShotFile env fi progress =
      (StatusCode.KInternalError, progress, []) ∧
    CleanCore.CleanFile env fi progress =
      (StatusCode.KInternalError, progress, []) := by
  constructor
  · simp [CleanCore.CleanSnapShotFile, h]
  · simp [CleanCore.CleanFile, h]

theorem claim_C10_zero_segmentsize_guard_witness :
    CleanCore.CleanSnapShotFile
        ⟨fun _ _ => (StoreStatus.OK, ⟨0, []⟩), fun _ _ _ _ => 0,
         fun _ _ _ _ => 0, fun _ _ => StoreStatus.OK,
         fun _ _ => StoreStatus.OK, fun _ _ => StoreStatus.OK⟩
        ⟨7, 3, "f", "/dir/f", 100, 0, 2⟩ ⟨0, TaskStatus.PROGRESSING⟩ =
      (StatusCode.KInternalError, ⟨0, TaskStatus.PROGRESSING⟩, []) ∧
    CleanCore.CleanFile
        ⟨fun _ _ => (StoreStatus.OK, ⟨0, []⟩), fun _ _ _ _ => 0,
         fun _ _ _ _ => 0, fun _ _ => StoreStatus.OK,
         fun _ _ => StoreStatus.OK, fun _ _ => StoreStatus.OK⟩
        ⟨7, 3, "f", "/dir/f", 100, 0, 2⟩ ⟨0, TaskStatus.PROGRESSING⟩ =
      (StatusCode.KInternalError, ⟨0, TaskStatus.PROGRESSING⟩, []) :=
  claim_C10_zero_segmentsize_guard _ _ _ rfl

theorem take_eq_take_length {α : Type _} (l : List α) (n : Nat) :
    l.take n = l.take (l.take n).length := by
  rw [List.length_take]
  rcases Nat.le_total n l.length with h | h
  · rw [Nat.min_eq_left h]
  · rw [Nat.min_eq_right h, List.take_length, List.take_of_length_le h]

/-- C9 (list cursor semantics): over a well-formed store, `List` with
cursor `d` (parent `(d.fsId, d.parentInodeId)`, cursor name `d.name` — the
empty name starting from the first child — snapshot `d.txId`) returns only
entries of that parent with names strictly greater than the cursor name; the
returned names strictly ascend, so at most one version is emitted per name
and there are no duplicates; a non-zero `limit` returns exactly the first
`limit` entries of the unbounded listing; and re-issuing the query with the
last returned name as the new cursor returns exactly the rest of the
unbounded listing — repeated cursor calls partition the visible children
with no duplicates or omissions. -/
theorem claim_C9_list_pagination (s : Store) (d : Dentry) (hwf : WF s)
    (limit : Nat) :
    (∀ r ∈ (DentryStorage.ListOp s d limit false).2,
       r.fsId = d.fsId ∧ r.parentInodeId = d.parentInodeId ∧
       d.name.data < r.name.data) ∧
    (DentryStorage.ListOp s d limit false).2.Pairwise
      (fun a b => a.name.data < b.name.data) ∧
    (limit ≠ 0 → (DentryStorage.ListOp s d limit false).2 =
      (DentryStorage.ListOp s d 0 false).2.take limit) ∧
    (∀ rl, (DentryStorage.ListOp s d limit false).2.getLast? = some rl →
      (DentryStorage.ListOp s
        ⟨d.fsId, d.parentInodeId, rl.name, d.txId, d.inodeId, d.flag, d.type⟩
        0 false).2 =
      (DentryStorage.ListOp s d 0 false).2.drop
        (DentryStorage.ListOp s d limit false).2.length) := by
  have hfull : (DentryStorage.ListOp s d 0 false).2 = listEntries s d false :=
    rfl
  have hout : (DentryStorage.ListOp s d limit false).2 =
      (listEntries s d false).take
        (DentryStorage.ListOp s d limit false).2.length := by
    by_cases h0 : limit = 0
    · simp [DentryStorage.ListOp, h0]
    · simp only [DentryStorage.ListOp, if_neg h0]
      exact take_eq_take_length _ limit
  have hpw_full := listEntries_pairwise hwf d
  refine ⟨?_, ?_, ?_, ?_⟩
  · intro r hr
    rw [hout] at hr
    have := (mem_listEntries hwf).mp (List.mem_of_mem_take hr)
    exact ⟨this.1, this.2.1, this.2.2.1⟩
  · rw [hout]
    exact hpw_full.sublist (List.take_sublist _ _)
  · intro h0
    simp [DentryStorage.ListOp, if_neg h0]
  · intro rl hl
    rw [hout] at hl
    rw [hfull]
    have hrl_take : rl ∈ (listEntries s d false).take
        (DentryStorage.ListOp s d limit false).2.length := getLast?_mem' hl
    have hrl_full : rl ∈ listEntries s d false :=
      List.mem_of_mem_take hrl_take
    have hrl_gt : d.name.data < rl.name.data :=
      ((mem_listEntries hwf).mp hrl_full).2.2.1
    have hpw_app : ((listEntries s d false).take
          (DentryStorage.ListOp s d limit false).2.length ++
        (listEntries s d false).drop
          (DentryStorage.ListOp s d limit false).2.length).Pairwise
        (fun a b => a.name.data < b.name.data) := by
      rw [List.take_append_drop]
      exact hpw_full
    have hcross := (List.pairwise_append.mp hpw_app).2.2
    have hpw_take := hpw_full.sublist
      (List.take_sublist (DentryStorage.ListOp s d limit false).2.length
        (listEntries s d false))
    have hmemiff : ∀ r : Dentry,
        r ∈ listEntries s
          ⟨d.fsId, d.parentInodeId, rl.name, d.txId, d.inodeId, d.flag,
            d.type⟩ false ↔
        r ∈ (listEntries s d false).drop
          (DentryStorage.ListOp s d limit false).2.length := by
      intro r
      constructor
      · intro hr
        obtain ⟨h1, h2, h3, h4, h5, h6, h7⟩ := (mem_listEntries hwf).mp hr
        have hr_full : r ∈ listEntries s d false :=
          (mem_listEntries hwf).mpr
            ⟨h1, h2, lt_trans hrl_gt h3, h4, h5, h6, h7⟩
        have := List.mem_append.mp
          ((List.take_append_drop
            (DentryStorage.ListOp s d limit false).2.length
            (listEntries s d false)).symm ▸ hr_full)
        rcases this with htk | hdr
        · exfalso
          rcases pairwise_rel_getLast hpw_take hl r htk with rfl | hlt
          · exact lt_irrefl _ h3
          · exact lt_asymm h3 hlt
        · exact hdr
      · intro hr
        have hr_full : r ∈ listEntries s d false :=
          List.mem_of_mem_drop hr
        obtain ⟨h1, h2, h3, h4, h5, h6, h7⟩ :=
          (mem_listEntries hwf).mp hr_full
        have hgt : rl.name.data < r.name.data := hcross rl hrl_take r hr
        exact (mem_listEntries hwf).mpr ⟨h1, h2, hgt, h4, h5, h6, h7⟩
    have hnodup1 : (listEntries s
        ⟨d.fsId, d.parentInodeId, rl.name, d.txId, d.inodeId, d.flag,
          d.type⟩ false).Nodup := by
      refine List.Pairwise.imp ?_ (listEntries_pairwise hwf _)
      intro a b hlt heq
      rw [heq] at hlt
      exact lt_irrefl _ hlt
    have hnodup2 : ((listEntries s d false).drop
        (DentryStorage.ListOp s d limit false).2.length).Nodup := by
      refine List.Pairwise.imp ?_ (hpw_full.sublist (List.drop_sublist _ _))
      intro a b hlt heq
      rw [heq] at hlt
      exact lt_irrefl _ hlt
    haveI : IsAntisymm Dentry (fun a b => a.name.data < b.name.data) :=
      ⟨fun a b h1 h2 => absurd h2 (lt_asymm h1)⟩
    exact List.eq_of_perm_of_sorted
      ((List.perm_ext_iff_of_nodup hnodup1 hnodup2).mpr hmemiff)
      (listEntries_pairwise hwf _)
      (hpw_full.sublist (List.drop_sublist _ _))

theorem claim_C9_list_pagination_witness :
    (DentryStorage.ListOp
        [⟨1, 0, "A1", 0, 1, 0, .TYPE_FILE⟩, ⟨1, 0, "A2", 0, 2, 0, .TYPE_FILE⟩,
         ⟨1, 0, "A3", 0, 3, 0, .TYPE_FILE⟩]
        ⟨1, 0, "A2", 0, 0, 0, .TYPE_FILE⟩ 0 false).2 =
      ((DentryStorage.ListOp
        [⟨1, 0, "A1", 0, 1, 0, .TYPE_FILE⟩, ⟨1, 0, "A2", 0, 2, 0, .TYPE_FILE⟩,
         ⟨1, 0, "A3", 0, 3, 0, .TYPE_FILE⟩]
        ⟨1, 0, "", 0, 0, 0, .TYPE_FILE⟩ 0 false).2).drop
        ((DentryStorage.ListOp
          [⟨1, 0, "A1", 0, 1, 0, .TYPE_FILE⟩,
           ⟨1, 0, "A2", 0, 2, 0, .TYPE_FILE⟩,
           ⟨1, 0, "A3", 0, 3, 0, .TYPE_FILE⟩]
          ⟨1, 0, "", 0, 0, 0, .TYPE_FILE⟩ 2 false).2).length :=
  (claim_C9_list_pagination
      [⟨1, 0, "A1", 0, 1, 0, .TYPE_FILE⟩, ⟨1, 0, "A2", 0, 2, 0, .TYPE_FILE⟩,
       ⟨1, 0, "A3", 0, 3, 0, .TYPE_FILE⟩]
      ⟨1, 0, "", 0, 0, 0, .TYPE_FILE⟩ (by decide) 2).2.2.2
    ⟨1, 0, "A2", 0, 2, 0, .TYPE_FILE⟩ (by decide)
